import Mathlib

/-!
# A shallow embedding of `kilo.c`

The program is the input/output core of a terminal text editor: it switches the
terminal to raw mode, decodes key presses (including escape sequences) read one
byte at a time, moves a cursor inside the viewport and redraws the screen.

Conventions of the embedding

* C `int` values are `Int`.  The arithmetic the program does on the cursor
  (`cx++`, `cx--`, `screencols - 1`) cannot overflow while the cursor is inside
  a viewport whose sizes are C `int`s, so it is written without wrap-around.
  The counter of the page loop `while (times--)` is the one place where the
  32-bit width decides how often a body runs; it is taken modulo `2^32`.
* A byte is a `Nat` below 256.
* The standard input is the list of the results of the successive `read` calls
  on it; once the list is used up every further `read` times out.
* Whether plain `char` is signed is fixed by the platform, not by the program;
  it is the parameter `charSigned` of the functions that convert a `char` to
  an `int`.
* Whether a `realloc` succeeds is up to the environment; it is the parameter
  `allocOk` of the functions that build the append buffer.
* What a `write` returns is up to the environment; it is a parameter of the
  functions that look at it (and of `editorRefreshScreen`, which does not).
* `getCursorPosition` reads an array it has not filled completely and stores a
  pointer into a `char`; the bytes found there are the parameters `mem` and
  `litByte`.
-/

namespace Kilo

/-! ## defines -/

/-- The macro `#define CTRL_KEY(k) ((k) & 0x1f)`. -/
def CTRL_KEY (k : Nat) : Nat := k &&& 0x1f

/-! `enum editorKey`: `ARROW_LEFT = 1000` and the following enumerators count up. -/

def ARROW_LEFT : Int := 1000
def ARROW_RIGHT : Int := 1001
def ARROW_UP : Int := 1002
def ARROW_DOWN : Int := 1003
def DEL_KEY : Int := 1004
def HOME_KEY : Int := 1005
def END_KEY : Int := 1006
def PAGE_UP : Int := 1007
def PAGE_DOWN : Int := 1008

/-- The value of the character constant `'\x1b'`. -/
def ESC : Nat := 0x1b

/-! ## data -/

/-- The fields of `struct termios` the program touches: the four flag words and
the control-character array `c_cc`. -/
structure termios where
  c_iflag : Nat
  c_oflag : Nat
  c_cflag : Nat
  c_lflag : Nat
  c_cc : List Nat
deriving DecidableEq

/-- The global state, `struct editorConfig`. -/
structure editorConfig where
  cx : Int
  cy : Int
  screenrows : Int
  screencols : Int
  orig_termios : termios
deriving DecidableEq

/-- A `struct termios` whose bytes are all zero. -/
def zeroTermios : termios :=
  { c_iflag := 0, c_oflag := 0, c_cflag := 0, c_lflag := 0, c_cc := List.replicate 32 0 }

/-- The global `struct editorConfig E;` at program start: an object of static
storage duration without an initialiser, so every member is zero. -/
def E_start : editorConfig :=
  { cx := 0, cy := 0, screenrows := 0, screencols := 0, orig_termios := zeroTermios }

/-! ## terminal -/

/-! Flag bits and `c_cc` indices of `<termios.h>` (the values Linux gives them). -/

def BRKINT : Nat := 0o2
def ICRNL : Nat := 0o400
def INPCK : Nat := 0o20
def ISTRIP : Nat := 0o40
def IXON : Nat := 0o2000
def OPOST : Nat := 0o1
def CS8 : Nat := 0o60
def ECHO : Nat := 0o10
def ICANON : Nat := 0o2
def IEXTEN : Nat := 0o100000
def ISIG : Nat := 0o1
def VTIME : Nat := 5
def VMIN : Nat := 6

/-- The statement `flags &= ~(mask)` on a 32-bit `tcflag_t`. -/
def clearBits (flags mask : Nat) : Nat := flags &&& (0xFFFFFFFF ^^^ mask)

/-- How a function that may call `die` or `exit` ends. -/
inductive Outcome (α : Type) where
  /-- the function returned -/
  | returned (a : α)
  /-- the process ended with this status; `dev` is what the terminal is left with
  once the registered exit actions have run -/
  | exited (status : Nat) (dev : termios)
deriving DecidableEq

/-- The call `tcsetattr(STDIN_FILENO, TCSAFLUSH, t)`: whether the call succeeded and the
device's attributes afterwards: `t` when it succeeded, the old ones `dev` when it
failed (`-1`). -/
def tcsetattr (succeeds : Bool) (dev t : termios) : Bool × termios :=
  if succeeds then (true, t) else (false, dev)

/-- The function `disableRawMode`: applies `E.orig_termios` to the terminal; `die` when that
fails.  `ok` is whether the `tcsetattr` call succeeds; the result is the
terminal's attributes afterwards.  (`die` calls `exit(1)` from inside an exit
action; no further action is pending then.) -/
def disableRawMode (E : editorConfig) (ok : Bool) (dev : termios) : Outcome termios :=
  match tcsetattr ok dev E.orig_termios with
  | (false, dev1) => .exited 1 dev1
  | (true, dev1) => .returned dev1

/-- The local `raw` that `enableRawMode` builds from `E.orig_termios`. -/
def rawOf (orig : termios) : termios :=
  { c_iflag := clearBits orig.c_iflag (BRKINT ||| ICRNL ||| INPCK ||| ISTRIP ||| IXON)
    c_oflag := clearBits orig.c_oflag OPOST
    c_cflag := orig.c_cflag ||| CS8
    c_lflag := clearBits orig.c_lflag (ECHO ||| ICANON ||| IEXTEN ||| ISIG)
    c_cc := (orig.c_cc.set VMIN 0).set VTIME 1 }

/-- The function `enableRawMode`.  Its first statement is
`tcsetattr(STDIN_FILENO, TCSAFLUSH, &E.orig_termios)`: it writes
`E.orig_termios` to the terminal; nothing in the function (or the program)
stores into `E.orig_termios`.  Then `disableRawMode` is registered with
`atexit`, `raw` is built and applied.  `ok1`, `ok2` say whether the two
`tcsetattr` calls succeed and `okExit` whether the one of the exit action does
(it runs when the second call fails and `die` exits).  The result is the
terminal's attributes after the function returned. -/
def enableRawMode (E : editorConfig) (ok1 ok2 okExit : Bool) (dev : termios) :
    Outcome termios :=
  match tcsetattr ok1 dev E.orig_termios with
  | (false, dev1) => .exited 1 dev1
  | (true, dev1) =>
    match tcsetattr ok2 dev1 (rawOf E.orig_termios) with
    | (false, dev2) =>
      match disableRawMode E okExit dev2 with
      | .returned dev3 => .exited 1 dev3
      | .exited s dev3 => .exited s dev3
    | (true, dev2) => .returned dev2

/-- The terminal's attributes after `enableRawMode` returned and the process
then left through `exit`, which runs the registered `disableRawMode`; all the
`tcsetattr` calls succeed. -/
def enableThenRestore (E : editorConfig) (dev : termios) : Outcome termios :=
  match enableRawMode E true true true dev with
  | .returned dev1 => disableRawMode E true dev1
  | .exited s dev1 => .exited s dev1

/-! ## input: `editorReadKey` -/

/-- The result of one `read(STDIN_FILENO, &c, 1)`. -/
inductive ReadResult where
  /-- the call returned 1 and stored this byte -/
  | byte (b : Nat)
  /-- the call returned 0: the `VTIME` timeout passed without input -/
  | timeout
  /-- the call returned -1 with `errno == EAGAIN` -/
  | eagain
  /-- the call returned -1 with another `errno` -/
  | error
deriving DecidableEq

/-- One `read(STDIN_FILENO, p, 1)` whose caller only asks `!= 1`: the byte when
the call returned 1, and the input that is left.  A used-up input times out. -/
def readOne : List ReadResult → Option Nat × List ReadResult
  | [] => (none, [])
  | .byte b :: rest => (some b, rest)
  | _ :: rest => (none, rest)

/-- The conversion of a `char` holding the byte `b` to `int`. -/
def charToInt (charSigned : Bool) (b : Nat) : Int :=
  if charSigned = true ∧ 128 ≤ b then (b : Int) - 256 else (b : Int)

/-- How `editorReadKey` ends. -/
inductive KeyResult where
  /-- it returned `c`; `rest` is the input not yet read -/
  | key (c : Int) (rest : List ReadResult)
  /-- it called `die`: the process exits with status 1 -/
  | died (rest : List ReadResult)
  /-- no byte ever arrives: the first loop keeps polling and never returns -/
  | waiting
deriving DecidableEq

/-- The body of `if (c == '\x1b') { ... }` in `editorReadKey`: the value returned
and the input left.  The comparisons of `seq[0]`, `seq[1]`, `seq[2]` are with
ASCII constants, so they come out the same for signed and unsigned `char`. -/
def readEscape (input : List ReadResult) : Int × List ReadResult :=
  match readOne input with
  | (none, r1) => ((ESC : Int), r1)
  | (some s0, r1) =>
    match readOne r1 with
    | (none, r2) => ((ESC : Int), r2)
    | (some s1, r2) =>
      if s0 = 0x5b then                       -- '['
        if 0x30 ≤ s1 ∧ s1 ≤ 0x39 then         -- '0' .. '9'
          match readOne r2 with
          | (none, r3) => ((ESC : Int), r3)
          | (some s2, r3) =>
            if s2 = 0x7e then                 -- '~'
              if s1 = 0x31 then (HOME_KEY, r3)
              else if s1 = 0x33 then (DEL_KEY, r3)
              else if s1 = 0x34 then (END_KEY, r3)
              else if s1 = 0x35 then (PAGE_UP, r3)
              else if s1 = 0x36 then (PAGE_DOWN, r3)
              else if s1 = 0x37 then (HOME_KEY, r3)
              else if s1 = 0x38 then (END_KEY, r3)
              else ((ESC : Int), r3)
            else ((ESC : Int), r3)
        else
          if s1 = 0x41 then (ARROW_UP, r2)         -- 'A'
          else if s1 = 0x42 then (ARROW_DOWN, r2)  -- 'B'
          else if s1 = 0x43 then (ARROW_RIGHT, r2) -- 'C'
          else if s1 = 0x44 then (ARROW_LEFT, r2)  -- 'D'
          else if s1 = 0x48 then (HOME_KEY, r2)    -- 'H'
          else if s1 = 0x46 then (END_KEY, r2)     -- 'F'
          else ((ESC : Int), r2)
      else if s0 = 0x30 then                  -- '0'
        if s1 = 0x48 then (HOME_KEY, r2)
        else if s1 = 0x46 then (END_KEY, r2)
        else ((ESC : Int), r2)
      else ((ESC : Int), r2)

/-- The function `editorReadKey`.  The first loop repeats the `read` until it returns 1,
calling `die` on `-1` with an `errno` other than `EAGAIN`. -/
def editorReadKey (charSigned : Bool) : List ReadResult → KeyResult
  | [] => .waiting
  | .timeout :: rest => editorReadKey charSigned rest
  | .eagain :: rest => editorReadKey charSigned rest
  | .error :: rest => .died rest
  | .byte c :: rest =>
    if c = ESC then .key (readEscape rest).1 (readEscape rest).2
    else .key (charToInt charSigned c) rest

/-! ## input: cursor movement and `editorProcessKeypress` -/

/-- The function `editorMoveCursor`. -/
def editorMoveCursor (key : Int) (E : editorConfig) : editorConfig :=
  if key = ARROW_LEFT then
    if E.cx ≠ 0 then { E with cx := E.cx - 1 } else E
  else if key = ARROW_RIGHT then
    if E.cx ≠ E.screencols - 1 then { E with cx := E.cx + 1 } else E
  else if key = ARROW_UP then
    if E.cy ≠ 0 then { E with cy := E.cy - 1 } else E
  else if key = ARROW_DOWN then
    if E.cy ≠ E.screenrows - 1 then { E with cy := E.cy + 1 } else E
  else E

/-- The body of `while (times--) editorMoveCursor(key);` run `n` times. -/
def moveTimes (key : Int) : Nat → editorConfig → editorConfig
  | 0, E => E
  | n + 1, E => moveTimes key n (editorMoveCursor key E)

/-- How often the body of `while (times--)` runs for a 32-bit `int times`: the
counter is decremented until it is 0. -/
def loopCount (times : Int) : Nat := (times % 4294967296).toNat

/-- How the `switch` of `editorProcessKeypress` ends. -/
inductive KeyOutcome where
  /-- the function returned with this editor state -/
  | running (E : editorConfig)
  /-- the quit key: `exit(0)` after the two `write` calls; `out` is what they were given -/
  | quit (out : List Nat)
deriving DecidableEq

/-- The `switch (c)` of `editorProcessKeypress`. -/
def editorHandleKey (c : Int) (E : editorConfig) : KeyOutcome :=
  if c = (CTRL_KEY 0x71 : Nat) then         -- CTRL_KEY('q')
    .quit ([0x1b, 0x5b, 0x32, 0x4a] ++ [0x1b, 0x5b, 0x48])
  else if c = HOME_KEY then .running { E with cx := 0 }
  else if c = END_KEY then .running { E with cx := E.screencols - 1 }
  else if c = PAGE_UP ∨ c = PAGE_DOWN then
    .running (moveTimes (if c = PAGE_UP then ARROW_UP else ARROW_DOWN)
      (loopCount E.screenrows) E)
  else if c = ARROW_UP ∨ c = ARROW_DOWN ∨ c = ARROW_LEFT ∨ c = ARROW_RIGHT then
    .running (editorMoveCursor c E)
  else .running E

/-- How `editorProcessKeypress` ends. -/
inductive StepResult where
  /-- it returned; `rest` is the input not yet read -/
  | running (E : editorConfig) (rest : List ReadResult)
  /-- the process exited with this status after writing `out` -/
  | exited (status : Nat) (out : List Nat) (rest : List ReadResult)
  /-- the key read never returns -/
  | waiting
deriving DecidableEq

/-- The function `editorProcessKeypress`: `editorReadKey`, then the `switch`. -/
def editorProcessKeypress (charSigned : Bool) (E : editorConfig)
    (input : List ReadResult) : StepResult :=
  match editorReadKey charSigned input with
  | .waiting => .waiting
  | .died rest => .exited 1 [] rest
  | .key c rest =>
    match editorHandleKey c E with
    | .running E1 => .running E1 rest
    | .quit out => .exited 0 out rest

/-- The editor state after the `switch` handled the keys of `keys` in turn;
`none` once a key made the process exit. -/
def handleKeys : List Int → editorConfig → Option editorConfig
  | [], E => some E
  | c :: cs, E =>
    match editorHandleKey c E with
    | .running E1 => handleKeys cs E1
    | .quit _ => none

/-- The cursor lies inside the viewport. -/
def cursorInView (E : editorConfig) : Prop :=
  0 ≤ E.cx ∧ E.cx ≤ E.screencols - 1 ∧ 0 ≤ E.cy ∧ E.cy ≤ E.screenrows - 1

instance (E : editorConfig) : Decidable (cursorInView E) := by
  unfold cursorInView; infer_instance

/-! ## The cursor model in the words of the specification -/

/-- The four directions of `moveBy`. -/
inductive Direction where
  | Left | Right | Up | Down
deriving DecidableEq

/-- The key code `editorMoveCursor` takes for a direction. -/
def Direction.key : Direction → Int
  | .Left => ARROW_LEFT
  | .Right => ARROW_RIGHT
  | .Up => ARROW_UP
  | .Down => ARROW_DOWN

/-- The clamped reference, after the specification: Left decrements `x` if
`x > 0`; Right increments `x` if `x < cols - 1`; Up decrements `y` if `y > 0`;
Down increments `y` if `y < rows - 1`.  The result is the new `(x, y)`. -/
def moveBy (rows cols : Int) (d : Direction) (x y : Int) : Int × Int :=
  match d with
  | .Left => (if x > 0 then x - 1 else x, y)
  | .Right => (if x < cols - 1 then x + 1 else x, y)
  | .Up => (x, if y > 0 then y - 1 else y)
  | .Down => (x, if y < rows - 1 then y + 1 else y)

/-! ## The key tables in the words of the specification -/

/-- The named key for the buffered digit of `ESC [ d ~`, after the
specification: 1→Home, 3→Delete, 4→End, 5→PageUp, 6→PageDown, 7→Home, 8→End.
The argument is the digit's value; any other digit gives bare Escape. -/
def tildeKey : Nat → Int
  | 1 => HOME_KEY
  | 3 => DEL_KEY
  | 4 => END_KEY
  | 5 => PAGE_UP
  | 6 => PAGE_DOWN
  | 7 => HOME_KEY
  | 8 => END_KEY
  | _ => (ESC : Int)

/-- A `read` that did not return 1: it timed out or failed. -/
def ReadResult.short : ReadResult → Bool
  | .byte _ => false
  | _ => true

/-- The codes of `enum editorKey`. -/
def namedKeys : List Int :=
  [ARROW_LEFT, ARROW_RIGHT, ARROW_UP, ARROW_DOWN, DEL_KEY, HOME_KEY, END_KEY, PAGE_UP,
    PAGE_DOWN]

/-! ## Concrete states used in the examples -/

/-- A 24 x 80 viewport with the cursor at the top left. -/
def view24x80 : editorConfig :=
  { cx := 0, cy := 0, screenrows := 24, screencols := 80, orig_termios := zeroTermios }

/-- The attributes of a terminal in the usual cooked mode: `ICRNL | IXON`,
`OPOST | ONLCR`, `CS8 | CREAD | B38400`, `ISIG | ICANON | ECHO | ECHOE | ECHOK |
IEXTEN | ECHOCTL | ECHOKE`, and the default control characters. -/
def cookedTermios : termios :=
  { c_iflag := 0o2400, c_oflag := 0o5, c_cflag := 0o277, c_lflag := 0o105073
    c_cc := [3, 28, 127, 21, 4, 0, 1, 0, 17, 19, 26, 0, 18, 15, 23, 22, 0, 0, 0, 0, 0, 0, 0,
      0, 0, 0, 0, 0, 0, 0, 0, 0] }

/-- The largest value of a C `int` (32 bits). -/
def INT_MAX : Int := 2147483647

/-! ## append buffer -/

/-- The function `abAppend(ab, s, len)` on the bytes of the buffer: `realloc` to
`ab->len + len` bytes, and when that gives `NULL` return with the buffer as it
was; otherwise copy `len` bytes of `s` behind the old content.  `allocOk n` says
whether a `realloc` to `n` bytes succeeds.  The length `ab->len` is the length
of the list; a buffer longer than `INT_MAX` bytes is outside the model. -/
def abAppend (allocOk : Nat → Bool) (ab : List Nat) (s : List Nat) (len : Nat) : List Nat :=
  if allocOk (ab.length + len) then ab ++ s.take len else ab

/-! ## output -/

/-- The bytes of `KILO_VERSION`, "0.0.1". -/
def KILO_VERSION : List Nat := [0x30, 0x2e, 0x30, 0x2e, 0x31]

/-- What `snprintf(welcome, sizeof(welcome), "Kilo editor -- version %s",
KILO_VERSION)` leaves in `welcome`: 28 bytes, fewer than the 80 of the array. -/
def welcomeText : List Nat :=
  [0x4b, 0x69, 0x6c, 0x6f, 0x20, 0x65, 0x64, 0x69, 0x74, 0x6f, 0x72, 0x20, 0x2d, 0x2d, 0x20,
    0x76, 0x65, 0x72, 0x73, 0x69, 0x6f, 0x6e, 0x20] ++ KILO_VERSION

/-- The escape sequence `"\x1b[K"`, erase to the end of the line. -/
def eraseLine : List Nat := [0x1b, 0x5b, 0x4b]

/-- The line break `"\r\n"`. -/
def lineBreak : List Nat := [0x0d, 0x0a]

/-- The escape sequence `"\x1b[?25l"`, hide the cursor. -/
def hideCursor : List Nat := [0x1b, 0x5b, 0x3f, 0x32, 0x35, 0x6c]

/-- The escape sequence `"\x1b[?25h"`, show the cursor. -/
def showCursor : List Nat := [0x1b, 0x5b, 0x3f, 0x32, 0x35, 0x68]

/-- The escape sequence `"\x1b[H"`, cursor to the home position. -/
def cursorHome : List Nat := [0x1b, 0x5b, 0x48]

/-- The body of `while (padding--) abAppend(ab, " ", 1);` run `n` times. -/
def appendSpaces (allocOk : Nat → Bool) : Nat → List Nat → List Nat
  | 0, ab => ab
  | n + 1, ab => appendSpaces allocOk n (abAppend allocOk ab [0x20] 1)

/-- The first part of the loop body of `editorDrawRows` for the row `y`: what is
appended before the erase sequence.  (`welcomelen` is not negative when
`screencols` is not; a negative length is outside the model.) -/
def drawRowContent (allocOk : Nat → Bool) (E : editorConfig) (y : Int) (ab : List Nat) :
    List Nat :=
  if y = Int.tdiv E.screenrows 3 then
    let welcomelen0 : Int := (welcomeText.length : Int)
    let welcomelen : Int := if welcomelen0 > E.screencols then E.screencols else welcomelen0
    let padding : Int := Int.tdiv (E.screencols - welcomelen) 2
    let ab1 := if padding ≠ 0 then abAppend allocOk ab [0x7e] 1 else ab
    let padding1 := if padding ≠ 0 then padding - 1 else padding
    let ab2 := appendSpaces allocOk (loopCount padding1) ab1
    abAppend allocOk ab2 welcomeText welcomelen.toNat
  else
    abAppend allocOk ab [0x7e] 1

/-- The loop body of `editorDrawRows` for the row `y`. -/
def drawRow (allocOk : Nat → Bool) (E : editorConfig) (y : Int) (ab : List Nat) : List Nat :=
  let ab1 := drawRowContent allocOk E y ab
  let ab2 := abAppend allocOk ab1 eraseLine 3
  if y < E.screenrows - 1 then abAppend allocOk ab2 lineBreak 2 else ab2

/-- The loop `for (...; y < E.screenrows; y++)` of `editorDrawRows` from the row
`y` on, with `n` rows still to draw. -/
def drawRowsFrom (allocOk : Nat → Bool) (E : editorConfig) : Nat → Nat → List Nat → List Nat
  | 0, _, ab => ab
  | n + 1, y, ab => drawRowsFrom allocOk E n (y + 1) (drawRow allocOk E (y : Int) ab)

/-- The function `editorDrawRows`: the rows `0 .. screenrows - 1` in turn. -/
def editorDrawRows (allocOk : Nat → Bool) (E : editorConfig) (ab : List Nat) : List Nat :=
  drawRowsFrom allocOk E E.screenrows.toNat 0 ab

/-- The decimal digits of `n` as ASCII bytes, most significant first. -/
def decimal (n : Nat) : List Nat :=
  if n = 0 then [0x30] else ((Nat.digits 10 n).reverse).map (fun d => d + 0x30)

/-- The conversion `%d` of `printf`. -/
def formatInt (z : Int) : List Nat :=
  if z < 0 then 0x2d :: decimal z.natAbs else decimal z.toNat

/-- The bytes of a C string: those before the first NUL. -/
def cString : List Nat → List Nat
  | [] => []
  | b :: bs => if b = 0 then [] else b :: cString bs

/-- What `snprintf(buf, sizeof(buf), "\x1b[%d;%dH", row, col)` leaves in the 32
byte array `buf` before the NUL: at most 31 bytes. -/
def cursorSeq (row col : Int) : List Nat :=
  ([0x1b, 0x5b] ++ formatInt row ++ [0x3b] ++ formatInt col ++ [0x48]).take 31

/-- The buffer `editorRefreshScreen` hands to `write`. -/
def frameBytes (allocOk : Nat → Bool) (E : editorConfig) : List Nat :=
  let ab1 := abAppend allocOk [] hideCursor 6
  let ab2 := abAppend allocOk ab1 cursorHome 3
  let ab3 := editorDrawRows allocOk E ab2
  let buf := cursorSeq (E.cy + 1) (E.cx + 1)
  let ab4 := abAppend allocOk ab3 buf (cString buf).length
  abAppend allocOk ab4 showCursor 6

/-- How `editorRefreshScreen` ends. -/
inductive RenderResult where
  /-- it returned after handing `frame` to `write` -/
  | returned (frame : List Nat)
  /-- the process exited with this status -/
  | exited (status : Nat)
deriving DecidableEq

/-- The function `editorRefreshScreen`.  The value `wret` that
`write(STDOUT_FILENO, ab.b, ab.len)` returns is not looked at: the statement is
an expression statement, followed by `abFree` and the end of the function. -/
def editorRefreshScreen (allocOk : Nat → Bool) (E : editorConfig) (_wret : Int) :
    RenderResult :=
  .returned (frameBytes allocOk E)

/-- Whether the text starts with the pattern. -/
def startsWith : List Nat → List Nat → Bool
  | [], _ => true
  | _ :: _, [] => false
  | p :: ps, x :: xs => p == x && startsWith ps xs

/-- The number of positions of the text at which the pattern occurs. -/
def occurrences (pat : List Nat) : List Nat → Nat
  | [] => 0
  | x :: xs => (if startsWith pat (x :: xs) then 1 else 0) + occurrences pat xs

/-! ## terminal: window size -/

/-- The test `isspace` of the C locale. -/
def isSpace (b : Nat) : Bool := decide (b = 0x20 ∨ (0x09 ≤ b ∧ b ≤ 0x0d))

/-- The test `isdigit`. -/
def isDigit (b : Nat) : Bool := decide (0x30 ≤ b ∧ b ≤ 0x39)

/-- The white space a `%d` conversion skips. -/
def skipSpace : List Nat → List Nat
  | [] => []
  | b :: bs => if isSpace b then skipSpace bs else b :: bs

/-- The digits a `%d` conversion takes: the number read so far and the text left. -/
def scanDigits : List Nat → Nat → Nat × List Nat
  | [], acc => (acc, [])
  | b :: bs, acc =>
    if isDigit b then scanDigits bs (10 * acc + (b - 0x30)) else (acc, b :: bs)

/-- The value stored in an `int` for a scanned number.  A number outside the
range of `int` has no defined result in C; it is taken to the 32 bits the
conversion to `int` keeps. -/
def toInt32 (z : Int) : Int := (z + 2147483648) % 4294967296 - 2147483648

/-- A digit string: at least one digit. -/
def scanUnsigned (s : List Nat) : Option (Nat × List Nat) :=
  match s with
  | [] => none
  | b :: _ => if isDigit b then some (scanDigits s 0) else none

/-- One `%d` conversion of `sscanf`: white space, an optional sign, digits.  The
result is the `int` stored and the text left, `none` when there is no number. -/
def scanInt (s : List Nat) : Option (Int × List Nat) :=
  match skipSpace s with
  | [] => none
  | b :: bs =>
    if b = 0x2d then
      match scanUnsigned bs with
      | some (v, t) => some (toInt32 (-(v : Int)), t)
      | none => none
    else if b = 0x2b then
      match scanUnsigned bs with
      | some (v, t) => some (toInt32 (v : Int), t)
      | none => none
    else
      match scanUnsigned (b :: bs) with
      | some (v, t) => some (toInt32 (v : Int), t)
      | none => none

/-- The call `sscanf(s, "%d;%d", rows, cols)`: the number of conversions stored
and the values of `*rows` and `*cols` afterwards.  (When nothing is converted
the call returns 0 or `EOF`; the caller only asks `!= 2`, so both are 0 here.) -/
def sscanfRowsCols (s : List Nat) (rows cols : Int) : Int × Int × Int :=
  match scanInt s with
  | none => (0, rows, cols)
  | some (v1, s1) =>
    match s1 with
    | [] => (1, v1, cols)
    | b :: s2 =>
      if b = 0x3b then
        match scanInt s2 with
        | none => (1, v1, cols)
        | some (v2, _) => (2, v1, v2)
      else (1, v1, cols)

/-- The loop `while (i < sizeof(buf) - 1)` of `getCursorPosition` with `n` turns
left: the bytes stored in `buf[0 .. i-1]` and the input left.  A read that does
not return 1 ends the loop, and so does the byte `R`, which sits in `buf[i]`
until the statement after the loop overwrites it. -/
def readReply : Nat → List Nat → List ReadResult → List Nat × List ReadResult
  | 0, stored, input => (stored, input)
  | n + 1, stored, input =>
    match readOne input with
    | (none, rest) => (stored, rest)
    | (some b, rest) =>
      if b = 0x52 then (stored, rest) else readReply n (stored ++ [b]) rest

/-- What a window-size query leaves behind. -/
structure ProbeResult where
  /-- the value returned, 0 or -1 -/
  ret : Int
  /-- the value of `*rows` afterwards -/
  rows : Int
  /-- the value of `*cols` afterwards -/
  cols : Int
  /-- the buffers handed to `write`, in order -/
  written : List (List Nat)
  /-- the input not yet read -/
  rest : List ReadResult
deriving DecidableEq

/-- The probe `"\x1b[6n"`, the request for a cursor position report. -/
def positionRequest : List Nat := [0x1b, 0x5b, 0x36, 0x6e]

/-- The probe `"\x1b[999C\x1b[999B"`, cursor far right and far down. -/
def cornerRequest : List Nat :=
  [0x1b, 0x5b, 0x39, 0x39, 0x39, 0x43, 0x1b, 0x5b, 0x39, 0x39, 0x39, 0x42]

/-- The function `getCursorPosition`.  `w` is what the `write` of the request
returns.  After the read loop the statement `buf[i] = "\0";` stores a pointer
to a string literal into a `char`: the byte that arrives in `buf[i]` is
`litByte`, the low byte of the address of the literal, fixed when the program
is built.  The array `buf` is not initialised: `mem` holds the bytes found in
memory from `buf[0]` on (bytes behind the end of `mem` read as 0), of which
`buf[0 .. i]` are overwritten. -/
def getCursorPosition (w : Int) (litByte : Nat) (mem : List Nat) (rows cols : Int)
    (input : List ReadResult) : ProbeResult :=
  if w ≠ 4 then
    { ret := -1, rows := rows, cols := cols, written := [positionRequest], rest := input }
  else
    let r := readReply 31 [] input
    let buf := r.1 ++ litByte :: mem.drop (r.1.length + 1)
    if buf.getD 0 0 ≠ 0x1b ∨ buf.getD 1 0 ≠ 0x5b then
      { ret := -1, rows := rows, cols := cols, written := [positionRequest], rest := r.2 }
    else
      let sc := sscanfRowsCols (cString (buf.drop 2)) rows cols
      if sc.1 ≠ 2 then
        { ret := -1, rows := sc.2.1, cols := sc.2.2, written := [positionRequest],
          rest := r.2 }
      else
        { ret := 0, rows := sc.2.1, cols := sc.2.2, written := [positionRequest],
          rest := r.2 }

/-- The first branch of `getWindowSize`, the fallback: the `write` of the corner
request, and when that wrote all 12 bytes, `getCursorPosition`. -/
def windowSizeFallback (w1 w2 : Int) (litByte : Nat) (mem : List Nat) (rows cols : Int)
    (input : List ReadResult) : ProbeResult :=
  if w1 ≠ 12 then
    { ret := -1, rows := rows, cols := cols, written := [cornerRequest], rest := input }
  else
    let p := getCursorPosition w2 litByte mem rows cols input
    { p with written := cornerRequest :: p.written }

/-- The function `getWindowSize`.  `ioctl` is the result of the `TIOCGWINSZ`
request: `none` when it returns -1, else `ws_row` and `ws_col` (both
`unsigned short`); `w1` and `w2` are what the two `write` calls of the fallback
return.  The condition is `ioctl(...) == -1 || ws.ws_col == 0`. -/
def getWindowSize (ioctl : Option (Nat × Nat)) (w1 w2 : Int) (litByte : Nat)
    (mem : List Nat) (rows cols : Int) (input : List ReadResult) : ProbeResult :=
  match ioctl with
  | none => windowSizeFallback w1 w2 litByte mem rows cols input
  | some (wsRow, wsCol) =>
    if wsCol = 0 then windowSizeFallback w1 w2 litByte mem rows cols input
    else
      { ret := 0, rows := (wsRow : Int), cols := (wsCol : Int), written := [], rest := input }

/-- The bytes `ESC [ r ; c` of a cursor position report before its terminator. -/
def replyBody (r c : Nat) : List Nat :=
  [0x1b, 0x5b] ++ decimal r ++ [0x3b] ++ decimal c

/-- The text does not go on with a digit. -/
def stopsNumber (tail : List Nat) : Prop := ∀ b t, tail = b :: t → isDigit b = false

/-! ## init: the loop of `main` -/

/-- How the loop `while (1) { editorRefreshScreen(); editorProcessKeypress(); }`
stands: the frames handed to `write` so far, and how it goes on. -/
inductive MainResult where
  /-- the turns asked for are done; the loop would go on from this state -/
  | running (frames : List (List Nat)) (E : editorConfig) (rest : List ReadResult)
  /-- the process exited with this status; `out` is what the quit key wrote -/
  | exited (status : Nat) (frames : List (List Nat)) (out : List Nat)
  /-- the key read of the last turn never returns -/
  | waiting (frames : List (List Nat))
deriving DecidableEq

/-- The frames rendered. -/
def MainResult.frames : MainResult → List (List Nat)
  | .running frames _ _ => frames
  | .exited _ frames _ => frames
  | .waiting frames => frames

/-- The loop of `main`, `n` turns of it: `editorRefreshScreen`, then
`editorProcessKeypress`.  `wret k` is what the `write` of the frame returns
when `k` frames have been written before. -/
def mainLoop (charSigned : Bool) (allocOk : Nat → Bool) (wret : Nat → Int) :
    Nat → List (List Nat) → editorConfig → List ReadResult → MainResult
  | 0, frames, E, input => .running frames E input
  | n + 1, frames, E, input =>
    match editorRefreshScreen allocOk E (wret frames.length) with
    | .exited status => .exited status frames []
    | .returned frame =>
      match editorProcessKeypress charSigned E input with
      | .running E1 rest => mainLoop charSigned allocOk wret n (frames ++ [frame]) E1 rest
      | .exited status out _ => .exited status (frames ++ [frame]) out
      | .waiting => .waiting (frames ++ [frame])

/-- The smallest value of a C `int` (32 bits). -/
def INT_MIN : Int := -2147483648

/-- The bytes `ESC [ a ; b` of a cursor position report with the numbers printed
as `%d` prints them, a sign in front of a negative one. -/
def replyBodyInt (a b : Int) : List Nat :=
  [0x1b, 0x5b] ++ formatInt a ++ [0x3b] ++ formatInt b

/-! ## The frame in the words of the specification -/

/-- The content of the row `y` before its erase marker, after the claim about
the welcome row: the row `rows/3` carries the welcome text cut to
`L = min(28, cols)` bytes behind `P = (cols - L)/2` padding bytes, the first a
tilde and the others spaces; every other row is one tilde. -/
def rowContent (rows cols : Nat) (y : Nat) : List Nat :=
  if y = rows / 3 then
    (if (cols - min 28 cols) / 2 = 0 then []
      else 0x7e :: List.replicate ((cols - min 28 cols) / 2 - 1) 0x20)
      ++ welcomeText.take (min 28 cols)
  else [0x7e]

/-- One row of the frame: its content, the erase marker, and a line break
unless it is the last row. -/
def rowBytes (rows cols : Nat) (y : Nat) : List Nat :=
  rowContent rows cols y ++ eraseLine ++ (if y + 1 < rows then lineBreak else [])

/-- The rows `y .. y + n - 1` of the frame one after the other. -/
def rowsBytes (rows cols : Nat) : Nat → Nat → List Nat
  | 0, _ => []
  | n + 1, y => rowBytes rows cols y ++ rowsBytes rows cols n (y + 1)

/-! ## Cursor movement: lemmas -/

theorem editorMoveCursor_view (key : Int) (E : editorConfig) :
    (editorMoveCursor key E).screenrows = E.screenrows ∧
    (editorMoveCursor key E).screencols = E.screencols ∧
    (editorMoveCursor key E).orig_termios = E.orig_termios := by
  unfold editorMoveCursor
  split_ifs <;> exact ⟨rfl, rfl, rfl⟩

theorem editorMoveCursor_inView (key : Int) (E : editorConfig) (h : cursorInView E) :
    cursorInView (editorMoveCursor key E) := by
  unfold cursorInView at *
  unfold editorMoveCursor
  obtain ⟨h1, h2, h3, h4⟩ := h
  split_ifs <;> (try simp only) <;> omega

theorem moveTimes_view (key : Int) (n : Nat) (E : editorConfig) :
    (moveTimes key n E).screenrows = E.screenrows ∧
    (moveTimes key n E).screencols = E.screencols ∧
    (moveTimes key n E).orig_termios = E.orig_termios := by
  induction n generalizing E with
  | zero => simp [moveTimes]
  | succ n ih =>
    obtain ⟨a, b, c⟩ := editorMoveCursor_view key E
    obtain ⟨a1, b1, c1⟩ := ih (editorMoveCursor key E)
    simp only [moveTimes]
    exact ⟨a1.trans a, b1.trans b, c1.trans c⟩

theorem moveTimes_inView (key : Int) (n : Nat) (E : editorConfig) (h : cursorInView E) :
    cursorInView (moveTimes key n E) := by
  induction n generalizing E with
  | zero => simpa [moveTimes] using h
  | succ n ih =>
    simp only [moveTimes]
    exact ih _ (editorMoveCursor_inView key E h)

/-- The value of `CTRL_KEY('q')`. -/
theorem CTRL_KEY_q : CTRL_KEY 0x71 = 17 := by decide

/-- A key other than the quit key keeps the editor running, the cursor inside the
viewport and the viewport as it was. -/
theorem editorHandleKey_inView (c : Int) (E : editorConfig) (hq : c ≠ 17)
    (h : cursorInView E) :
    ∃ E1, editorHandleKey c E = .running E1 ∧ cursorInView E1 ∧
      E1.screenrows = E.screenrows ∧ E1.screencols = E.screencols := by
  unfold editorHandleKey
  rw [CTRL_KEY_q]
  have hq1 : ¬ c = ((17 : Nat) : Int) := by simpa using hq
  rw [if_neg hq1]
  have hv := h
  unfold cursorInView at hv
  obtain ⟨h1, h2, h3, h4⟩ := hv
  by_cases k1 : c = HOME_KEY
  · rw [if_pos k1]
    exact ⟨_, rfl, by unfold cursorInView; simp only; omega, rfl, rfl⟩
  rw [if_neg k1]
  by_cases k2 : c = END_KEY
  · rw [if_pos k2]
    exact ⟨_, rfl, by unfold cursorInView; simp only; omega, rfl, rfl⟩
  rw [if_neg k2]
  by_cases k3 : c = PAGE_UP ∨ c = PAGE_DOWN
  · rw [if_pos k3]
    exact ⟨_, rfl, moveTimes_inView _ _ _ h, (moveTimes_view _ _ _).1,
      (moveTimes_view _ _ _).2.1⟩
  rw [if_neg k3]
  by_cases k4 : c = ARROW_UP ∨ c = ARROW_DOWN ∨ c = ARROW_LEFT ∨ c = ARROW_RIGHT
  · rw [if_pos k4]
    exact ⟨_, rfl, editorMoveCursor_inView _ _ h, (editorMoveCursor_view _ _).1,
      (editorMoveCursor_view _ _).2.1⟩
  rw [if_neg k4]
  exact ⟨_, rfl, h, rfl, rfl⟩

theorem handleKeys_inView (keys : List Int) (E : editorConfig)
    (hq : ∀ c ∈ keys, c ≠ 17) (h : cursorInView E) :
    ∃ E1, handleKeys keys E = some E1 ∧ cursorInView E1 ∧
      E1.screenrows = E.screenrows ∧ E1.screencols = E.screencols := by
  induction keys generalizing E with
  | nil => exact ⟨E, rfl, h, rfl, rfl⟩
  | cons c cs ih =>
    obtain ⟨E1, e1, v1, r1, c1⟩ :=
      editorHandleKey_inView c E (hq c (List.mem_cons_self _ _)) h
    obtain ⟨E2, e2, v2, r2, c2⟩ :=
      ih E1 (fun k hk => hq k (List.mem_cons_of_mem _ hk)) v1
    refine ⟨E2, ?_, v2, r2.trans r1, c2.trans c1⟩
    simp only [handleKeys, e1]
    exact e2

/-! ## Cursor movement: the claims -/

/-- C1. Cursor bounds invariant: in a viewport with `rows > 0` and `cols > 0`,
from a cursor with `0 <= cx < cols` and `0 <= cy < rows`, after every step of
any finite sequence of key events other than the quit key the editor is still
running, the viewport is the same and `0 <= cx <= cols-1`, `0 <= cy <= rows-1`;
and one `editorProcessKeypress` whose `editorReadKey` decodes such a key returns
with the cursor inside the viewport. -/
theorem C1_cursor_stays_in_viewport (E : editorConfig) (keys : List Int)
    (hrows : 0 < E.screenrows) (hcols : 0 < E.screencols)
    (hx : 0 ≤ E.cx ∧ E.cx < E.screencols) (hy : 0 ≤ E.cy ∧ E.cy < E.screenrows)
    (hq : ∀ c ∈ keys, c ≠ (CTRL_KEY 0x71 : Nat)) :
    (∀ n : Nat, ∃ E1, handleKeys (keys.take n) E = some E1 ∧
        (0 ≤ E1.cx ∧ E1.cx ≤ E.screencols - 1) ∧ (0 ≤ E1.cy ∧ E1.cy ≤ E.screenrows - 1) ∧
        E1.screenrows = E.screenrows ∧ E1.screencols = E.screencols) ∧
    (∀ (charSigned : Bool) (input rest : List ReadResult) (c : Int),
        editorReadKey charSigned input = .key c rest → c ≠ (CTRL_KEY 0x71 : Nat) →
        ∃ E1, editorProcessKeypress charSigned E input = .running E1 rest ∧
          (0 ≤ E1.cx ∧ E1.cx ≤ E.screencols - 1) ∧
          (0 ≤ E1.cy ∧ E1.cy ≤ E.screenrows - 1) ∧
          E1.screenrows = E.screenrows ∧ E1.screencols = E.screencols) := by
  have hv : cursorInView E := by
    have _hr := hrows
    have _hc := hcols
    unfold cursorInView; omega
  have hq17 : ∀ c : Int, c ≠ (CTRL_KEY 0x71 : Nat) → c ≠ 17 := by
    intro c hc; rw [CTRL_KEY_q] at hc; simpa using hc
  constructor
  · intro n
    obtain ⟨E1, e1, v1, r1, c1⟩ := handleKeys_inView (keys.take n) E
      (fun c hc => hq17 c (hq c (List.mem_of_mem_take hc))) hv
    unfold cursorInView at v1
    rw [r1, c1] at v1
    exact ⟨E1, e1, ⟨v1.1, v1.2.1⟩, ⟨v1.2.2.1, v1.2.2.2⟩, r1, c1⟩
  · intro charSigned input rest c hk hc
    obtain ⟨E1, e1, v1, r1, c1⟩ := editorHandleKey_inView c E (hq17 c hc) hv
    unfold cursorInView at v1
    rw [r1, c1] at v1
    refine ⟨E1, ?_, ⟨v1.1, v1.2.1⟩, ⟨v1.2.2.1, v1.2.2.2⟩, r1, c1⟩
    simp [editorProcessKeypress, hk, e1]

/-- C10. Single-step moves equal the clamped reference `moveBy`: inside a
viewport with `rows > 0` and `cols > 0`, `editorMoveCursor` with the key of a
direction sets `(cx, cy)` to what `moveBy` gives and changes nothing else; the
function is total, so no move fails. -/
theorem C10_move_is_clamped_reference (E : editorConfig) (d : Direction)
    (hrows : 0 < E.screenrows) (hcols : 0 < E.screencols)
    (hx : 0 ≤ E.cx ∧ E.cx < E.screencols) (hy : 0 ≤ E.cy ∧ E.cy < E.screenrows) :
    editorMoveCursor d.key E =
      { E with cx := (moveBy E.screenrows E.screencols d E.cx E.cy).1
               cy := (moveBy E.screenrows E.screencols d E.cx E.cy).2 } := by
  obtain ⟨cx, cy, rows, cols, t⟩ := E
  simp only at hrows hcols hx hy
  obtain ⟨x0, x1⟩ := hx
  obtain ⟨y0, y1⟩ := hy
  simp only
  cases d
  · by_cases h : cx = 0
    · simp [Direction.key, editorMoveCursor, moveBy, ARROW_LEFT, h]
    · have : cx > 0 := by omega
      simp [Direction.key, editorMoveCursor, moveBy, ARROW_LEFT, h, this]
  · by_cases h : cx = cols - 1
    · have : ¬ cx < cols - 1 := by omega
      simp [Direction.key, editorMoveCursor, moveBy, ARROW_LEFT, ARROW_RIGHT, h]
    · have : cx < cols - 1 := by omega
      simp [Direction.key, editorMoveCursor, moveBy, ARROW_LEFT, ARROW_RIGHT, h, this]
  · by_cases h : cy = 0
    · simp [Direction.key, editorMoveCursor, moveBy, ARROW_LEFT, ARROW_RIGHT, ARROW_UP, h]
    · have : cy > 0 := by omega
      simp [Direction.key, editorMoveCursor, moveBy, ARROW_LEFT, ARROW_RIGHT, ARROW_UP, h,
        this]
  · by_cases h : cy = rows - 1
    · have : ¬ cy < rows - 1 := by omega
      simp [Direction.key, editorMoveCursor, moveBy, ARROW_LEFT, ARROW_RIGHT, ARROW_UP,
        ARROW_DOWN, h]
    · have : cy < rows - 1 := by omega
      simp [Direction.key, editorMoveCursor, moveBy, ARROW_LEFT, ARROW_RIGHT, ARROW_UP,
        ARROW_DOWN, h, this]

theorem C1_cursor_stays_in_viewport_witness :
    ∃ E1, handleKeys ([PAGE_DOWN, ARROW_DOWN, 0x61, END_KEY, ARROW_RIGHT, 0x1b].take 5)
        view24x80 = some E1 ∧
      (0 ≤ E1.cx ∧ E1.cx ≤ view24x80.screencols - 1) ∧
      (0 ≤ E1.cy ∧ E1.cy ≤ view24x80.screenrows - 1) ∧
      E1.screenrows = view24x80.screenrows ∧ E1.screencols = view24x80.screencols :=
  (C1_cursor_stays_in_viewport view24x80 [PAGE_DOWN, ARROW_DOWN, 0x61, END_KEY, ARROW_RIGHT, 0x1b]
    (by decide) (by decide) (by decide) (by decide) (by decide)).1 5

theorem C10_move_is_clamped_reference_witness :
    editorMoveCursor Direction.Right.key view24x80 =
      { view24x80 with cx := 1, cy := 0 } :=
  C10_move_is_clamped_reference view24x80 Direction.Right
    (by decide) (by decide) (by decide) (by decide)

/-! ## Key decoding: the claims -/

/-- C3. For every digit `d` of 1, 3, 4, 5, 6, 7, 8 and every following input,
decoding `ESC [ d ~` returns exactly the named key of the table (1→Home,
3→Delete, 4→End, 5→PageUp, 6→PageDown, 7→Home, 8→End), which is one of the
named-key codes, and leaves exactly the input after those four bytes. -/
theorem C3_tilde_sequence_decodes (charSigned : Bool) (d : Nat) (rest : List ReadResult)
    (hd : d ∈ [1, 3, 4, 5, 6, 7, 8]) :
    editorReadKey charSigned
        (.byte 0x1b :: .byte 0x5b :: .byte (0x30 + d) :: .byte 0x7e :: rest) =
      .key (tildeKey d) rest ∧ tildeKey d ∈ namedKeys := by
  simp only [List.mem_cons, List.mem_singleton, List.not_mem_nil, or_false] at hd
  rcases hd with rfl | rfl | rfl | rfl | rfl | rfl | rfl <;> exact ⟨rfl, by decide⟩

theorem C3_tilde_sequence_decodes_witness :
    editorReadKey true [.byte 0x1b, .byte 0x5b, .byte 0x35, .byte 0x7e, .byte 0x61] =
      .key PAGE_UP [.byte 0x61] :=
  (C3_tilde_sequence_decodes true 5 [.byte 0x61] (by decide)).1

/-- C4. For every input that starts with `ESC [ b`, `b` one of `A B C D H F`,
`editorReadKey` returns the one key ArrowUp, ArrowDown, ArrowRight, ArrowLeft,
Home, End respectively and leaves exactly the input after those three bytes. -/
theorem C4_final_byte_decodes (charSigned : Bool) (rest : List ReadResult) :
    editorReadKey charSigned (.byte 0x1b :: .byte 0x5b :: .byte 0x41 :: rest) =
      .key ARROW_UP rest ∧
    editorReadKey charSigned (.byte 0x1b :: .byte 0x5b :: .byte 0x42 :: rest) =
      .key ARROW_DOWN rest ∧
    editorReadKey charSigned (.byte 0x1b :: .byte 0x5b :: .byte 0x43 :: rest) =
      .key ARROW_RIGHT rest ∧
    editorReadKey charSigned (.byte 0x1b :: .byte 0x5b :: .byte 0x44 :: rest) =
      .key ARROW_LEFT rest ∧
    editorReadKey charSigned (.byte 0x1b :: .byte 0x5b :: .byte 0x48 :: rest) =
      .key HOME_KEY rest ∧
    editorReadKey charSigned (.byte 0x1b :: .byte 0x5b :: .byte 0x46 :: rest) =
      .key END_KEY rest :=
  ⟨rfl, rfl, rfl, rfl, rfl, rfl⟩

theorem readOne_nil : readOne [] = (none, []) := rfl

theorem readOne_byte (b : Nat) (rest : List ReadResult) :
    readOne (.byte b :: rest) = (some b, rest) := rfl

theorem readOne_short (r : ReadResult) (rest : List ReadResult) (hr : r.short = true) :
    readOne (r :: rest) = (none, rest) := by
  cases r <;> simp_all [readOne, ReadResult.short]

/-- C5. A short read inside an escape sequence collapses to bare Escape: once
`ESC` has been read, if the read of the 2nd byte, of the 3rd byte, or (after
`ESC [` and a digit, the one case in which there is one) of the 4th byte times
out or fails, `editorReadKey` returns the one value 0x1B, which is none of the
named keys; the input running out counts as a timeout, so a lone `ESC` gives
bare Escape. -/
theorem C5_short_read_gives_escape (charSigned : Bool) (r : ReadResult) (b1 b2 : Nat)
    (rest : List ReadResult) (hr : r.short = true) (h2 : 0x30 ≤ b2 ∧ b2 ≤ 0x39) :
    editorReadKey charSigned (.byte 0x1b :: r :: rest) = .key 0x1b rest ∧
    editorReadKey charSigned (.byte 0x1b :: .byte b1 :: r :: rest) = .key 0x1b rest ∧
    editorReadKey charSigned (.byte 0x1b :: .byte 0x5b :: .byte b2 :: r :: rest) =
      .key 0x1b rest ∧
    editorReadKey charSigned [.byte 0x1b] = .key 0x1b [] ∧
    editorReadKey charSigned [.byte 0x1b, .byte b1] = .key 0x1b [] ∧
    editorReadKey charSigned [.byte 0x1b, .byte 0x5b, .byte b2] = .key 0x1b [] ∧
    (0x1b : Int) ∉ namedKeys := by
  have e := readOne_short r rest hr
  refine ⟨?_, ?_, ?_, rfl, rfl, ?_, by decide⟩
  · simp [editorReadKey, readEscape, e, ESC]
  · simp [editorReadKey, readEscape, readOne_byte, e, ESC]
  · simp [editorReadKey, readEscape, readOne_byte, e, ESC, h2]
  · simp [editorReadKey, readEscape, readOne_byte, readOne_nil, ESC, h2]

theorem C5_short_read_gives_escape_witness :
    editorReadKey false [.byte 0x1b, .byte 0x5b, .byte 0x35, .timeout, .byte 0x7e] =
      .key 0x1b [.byte 0x7e] :=
  (C5_short_read_gives_escape false .timeout 0x5b 0x35 [.byte 0x7e] rfl (by decide)).2.2.1

theorem editorReadKey_esc (charSigned : Bool) (input : List ReadResult) :
    editorReadKey charSigned (.byte 0x1b :: input) =
      .key (readEscape input).1 (readEscape input).2 := by
  simp [editorReadKey, ESC]

/-- After `ESC [` a byte that is neither a digit nor one of `A B C D H F` ends
the decoding at once. -/
theorem readEscape_bracket_other (b : Nat) (tail : List ReadResult)
    (hd : ¬ (0x30 ≤ b ∧ b ≤ 0x39)) (hf : b ∉ [0x41, 0x42, 0x43, 0x44, 0x48, 0x46]) :
    readEscape (.byte 0x5b :: .byte b :: tail) = ((0x1b : Int), tail) := by
  simp only [List.mem_cons, List.mem_singleton, List.not_mem_nil, or_false, not_or] at hf
  obtain ⟨f1, f2, f3, f4, f5, f6⟩ := hf
  simp [readEscape, readOne_byte, hd, f1, f2, f3, f4, f5, f6, ESC]

/-- After `ESC [` the digits `0` and `9` make the decoder read one more time;
whatever that read gives, the result is bare Escape. -/
theorem readEscape_bracket_0_9 (b : Nat) (tail : List ReadResult)
    (h : b = 0x30 ∨ b = 0x39) :
    readEscape (.byte 0x5b :: .byte b :: tail) = ((0x1b : Int), (readOne tail).2) := by
  rcases h with rfl | rfl
  · cases tail with
    | nil => rfl
    | cons r rest =>
      cases r with
      | byte s2 => by_cases h : s2 = 0x7e <;> simp [readEscape, readOne_byte, ESC, h]
      | timeout => rfl
      | eagain => rfl
      | error => rfl
  · cases tail with
    | nil => rfl
    | cons r rest =>
      cases r with
      | byte s2 => by_cases h : s2 = 0x7e <;> simp [readEscape, readOne_byte, ESC, h]
      | timeout => rfl
      | eagain => rfl
      | error => rfl

/-- The `switch` of `editorProcessKeypress` has no case for bare Escape. -/
theorem editorHandleKey_escape (E : editorConfig) :
    editorHandleKey 0x1b E = .running E := by
  simp [editorHandleKey, CTRL_KEY_q, HOME_KEY, END_KEY, PAGE_UP, PAGE_DOWN, ARROW_UP,
    ARROW_DOWN, ARROW_LEFT, ARROW_RIGHT]

/-- C6. For every byte `b` that is neither a digit `1`..`8` nor one of
`A B C D H F`, decoding an input that starts with `ESC [ b` returns bare Escape,
which is none of the named keys, and `editorProcessKeypress` on that input
returns with the editor state, the cursor `(cx, cy)` included, as it was. -/
theorem C6_unrecognised_byte_is_escape (charSigned : Bool) (b : Nat)
    (tail : List ReadResult) (E : editorConfig)
    (hd : ¬ (0x31 ≤ b ∧ b ≤ 0x38)) (hf : b ∉ [0x41, 0x42, 0x43, 0x44, 0x48, 0x46]) :
    ∃ rest,
      editorReadKey charSigned (.byte 0x1b :: .byte 0x5b :: .byte b :: tail) =
        .key 0x1b rest ∧
      (0x1b : Int) ∉ namedKeys ∧
      editorProcessKeypress charSigned E (.byte 0x1b :: .byte 0x5b :: .byte b :: tail) =
        .running E rest := by
  have key : ∃ rest, readEscape (.byte 0x5b :: .byte b :: tail) = ((0x1b : Int), rest) := by
    by_cases h09 : b = 0x30 ∨ b = 0x39
    · exact ⟨_, readEscape_bracket_0_9 b tail h09⟩
    · exact ⟨_, readEscape_bracket_other b tail (by omega) hf⟩
  obtain ⟨rest, hk⟩ := key
  have e : editorReadKey charSigned (.byte 0x1b :: .byte 0x5b :: .byte b :: tail) =
      .key 0x1b rest := by
    rw [editorReadKey_esc, hk]
  refine ⟨rest, e, by decide, ?_⟩
  simp only [editorProcessKeypress, e, editorHandleKey_escape]

theorem C6_unrecognised_byte_is_escape_witness :
    ∃ rest,
      editorReadKey true [.byte 0x1b, .byte 0x5b, .byte 0x5a, .byte 0x61] = .key 0x1b rest ∧
      (0x1b : Int) ∉ namedKeys ∧
      editorProcessKeypress true view24x80 [.byte 0x1b, .byte 0x5b, .byte 0x5a, .byte 0x61] =
        .running view24x80 rest :=
  C6_unrecognised_byte_is_escape true 0x5a [.byte 0x61] view24x80 (by decide) (by decide)

/-- C7, as stated, fails: where plain `char` is signed the byte 0x80 comes back
as -128, not as 0x80. -/
theorem C7_counterexample :
    editorReadKey true [.byte 0x80] = .key (-128) [] ∧
    ¬ (∀ (charSigned : Bool) (b : Nat) (rest : List ReadResult), b < 256 → b ≠ 0x1b →
        editorReadKey charSigned (.byte b :: rest) = .key (b : Int) rest) := by
  refine ⟨by decide, fun h => ?_⟩
  have h1 := h true 0x80 [] (by decide) (by decide)
  revert h1
  decide

/-- C7, amended. Start state: a first byte `b` in 0..255 other than 0x1B is the
only byte `editorReadKey` consumes, and the value returned is that `char`
converted to `int`: `b` itself for `b < 0x80` and wherever plain `char` is
unsigned, `b - 256` for `b >= 0x80` where plain `char` is signed; either way
the value lies in -128..255 and is none of the named-key codes. -/
theorem C7_first_byte_is_returned_as_char (charSigned : Bool) (b : Nat)
    (rest : List ReadResult) (hb : b < 256) (hne : b ≠ 0x1b) :
    editorReadKey charSigned (.byte b :: rest) = .key (charToInt charSigned b) rest ∧
    (b < 0x80 ∨ charSigned = false → charToInt charSigned b = (b : Int)) ∧
    (0x80 ≤ b ∧ charSigned = true → charToInt charSigned b = (b : Int) - 256) ∧
    (-128 ≤ charToInt charSigned b ∧ charToInt charSigned b ≤ 255) ∧
    charToInt charSigned b ∉ namedKeys := by
  have hr : -128 ≤ charToInt charSigned b ∧ charToInt charSigned b ≤ 255 := by
    unfold charToInt
    split_ifs with h <;> omega
  refine ⟨?_, ?_, ?_, hr, ?_⟩
  · simp [editorReadKey, ESC, hne]
  · intro h
    unfold charToInt
    rcases h with h | h
    · rw [if_neg (by omega)]
    · rw [if_neg (by simp [h])]
  · intro h
    unfold charToInt
    rw [if_pos ⟨h.2, h.1⟩]
  · intro hm
    simp only [namedKeys, ARROW_LEFT, ARROW_RIGHT, ARROW_UP, ARROW_DOWN, DEL_KEY, HOME_KEY,
      END_KEY, PAGE_UP, PAGE_DOWN, List.mem_cons, List.mem_singleton, List.not_mem_nil,
      or_false] at hm
    omega

theorem C7_first_byte_is_returned_as_char_witness :
    editorReadKey true [.byte 0xe9, .byte 0x61] = .key (charToInt true 0xe9) [.byte 0x61] :=
  (C7_first_byte_is_returned_as_char true 0xe9 [.byte 0x61] (by decide) (by decide)).1

/-- C8, as stated, fails: in `ESC x y z` the byte `y` after `x` is read as well,
so only `z` is left for the next decode. -/
theorem C8_counterexample :
    editorReadKey true [.byte 0x1b, .byte 0x78, .byte 0x79, .byte 0x7a] =
      .key 0x1b [.byte 0x7a] ∧
    ¬ (∀ (charSigned : Bool) (b : Nat) (tail : List ReadResult), b ≠ 0x5b → b ≠ 0x30 →
        editorReadKey charSigned (.byte 0x1b :: .byte b :: tail) = .key 0x1b tail) := by
  refine ⟨by decide, fun h => ?_⟩
  have h1 := h true 0x78 [.byte 0x79, .byte 0x7a] (by decide) (by decide)
  revert h1
  decide

/-- C8, amended. For every byte `b` other than `[` and `0`, decoding an input
that starts with `ESC b` returns bare Escape, but only after the read for the
third byte, which is made before `b` is looked at: when a byte `c` follows `b`
the three bytes `ESC b c` are consumed and the input after `c` is left for the
next decode; when that read times out or fails, `ESC` and `b` are the bytes
consumed. -/
theorem C8_escape_after_two_reads (charSigned : Bool) (b c : Nat) (r : ReadResult)
    (rest : List ReadResult) (h1 : b ≠ 0x5b) (h2 : b ≠ 0x30) (hr : r.short = true) :
    editorReadKey charSigned (.byte 0x1b :: .byte b :: .byte c :: rest) = .key 0x1b rest ∧
    editorReadKey charSigned (.byte 0x1b :: .byte b :: r :: rest) = .key 0x1b rest ∧
    editorReadKey charSigned [.byte 0x1b, .byte b] = .key 0x1b [] := by
  have e := readOne_short r rest hr
  refine ⟨?_, ?_, ?_⟩
  · simp [editorReadKey_esc, readEscape, readOne_byte, h1, h2, ESC]
  · simp [editorReadKey_esc, readEscape, readOne_byte, e, ESC]
  · simp [editorReadKey_esc, readEscape, readOne_byte, readOne_nil, ESC]

theorem C8_escape_after_two_reads_witness :
    editorReadKey false [.byte 0x1b, .byte 0x4f, .byte 0x48, .byte 0x61] =
      .key 0x1b [.byte 0x61] :=
  (C8_escape_after_two_reads false 0x4f 0x48 .timeout [.byte 0x61] (by decide) (by decide)
    rfl).1

/-- C9, as stated, fails: after `ESC [ 0` the decoder reads a fourth byte, so
of `ESC [ 0 a b` only `b` is left. -/
theorem C9_counterexample :
    editorReadKey true [.byte 0x1b, .byte 0x5b, .byte 0x30, .byte 0x61, .byte 0x62] =
      .key 0x1b [.byte 0x62] ∧
    ¬ (∀ (charSigned : Bool) (b : Nat) (tail : List ReadResult), ¬ (0x31 ≤ b ∧ b ≤ 0x38) →
        b ∉ [0x41, 0x42, 0x43, 0x44, 0x48, 0x46] →
        editorReadKey charSigned (.byte 0x1b :: .byte 0x5b :: .byte b :: tail) =
          .key 0x1b tail) := by
  refine ⟨by decide, fun h => ?_⟩
  have h1 := h true 0x30 [.byte 0x61, .byte 0x62] (by decide) (by decide)
  revert h1
  decide

/-- C9, amended. The bracket state reads a fourth byte exactly after a digit
`0`..`9`: for every byte `b` after `ESC [` that is neither a digit `0`..`9` nor
one of `A B C D H F`, `editorReadKey` returns bare Escape having consumed
exactly the three bytes, and the input after them is untouched; after the
digits `0` and `9` it makes one more read and returns bare Escape whatever that
read gives. -/
theorem C9_fourth_read_only_after_digit (charSigned : Bool) (b : Nat)
    (tail : List ReadResult) (hd : ¬ (0x30 ≤ b ∧ b ≤ 0x39))
    (hf : b ∉ [0x41, 0x42, 0x43, 0x44, 0x48, 0x46]) :
    editorReadKey charSigned (.byte 0x1b :: .byte 0x5b :: .byte b :: tail) =
      .key 0x1b tail ∧
    editorReadKey charSigned (.byte 0x1b :: .byte 0x5b :: .byte 0x30 :: tail) =
      .key 0x1b (readOne tail).2 ∧
    editorReadKey charSigned (.byte 0x1b :: .byte 0x5b :: .byte 0x39 :: tail) =
      .key 0x1b (readOne tail).2 := by
  refine ⟨?_, ?_, ?_⟩
  · rw [editorReadKey_esc, readEscape_bracket_other b tail hd hf]
  · rw [editorReadKey_esc, readEscape_bracket_0_9 0x30 tail (Or.inl rfl)]
  · rw [editorReadKey_esc, readEscape_bracket_0_9 0x39 tail (Or.inr rfl)]

theorem C9_fourth_read_only_after_digit_witness :
    editorReadKey true [.byte 0x1b, .byte 0x5b, .byte 0x5a, .byte 0x61, .byte 0x62] =
      .key 0x1b [.byte 0x61, .byte 0x62] :=
  (C9_fourth_read_only_after_digit true 0x5a [.byte 0x61, .byte 0x62] (by decide)
    (by decide)).1

/-! ## Terminal mode: the claim -/

/-- C2. What the code does about the round trip `enableRawMode` then
`disableRawMode`: with every `tcsetattr` succeeding, the terminal ends with
`E.orig_termios`, which nothing has filled from the terminal; at program start
that is the zeroed `struct termios`, whatever attributes `A` the terminal had,
so a terminal in cooked mode is not given its attributes back. -/
theorem C2_restore_applies_unfilled_snapshot :
    (∀ (E : editorConfig) (A : termios), enableThenRestore E A = .returned E.orig_termios) ∧
    (∀ A : termios, enableThenRestore E_start A = .returned zeroTermios) ∧
    enableThenRestore E_start cookedTermios ≠ .returned cookedTermios := by
  refine ⟨fun E A => rfl, fun A => rfl, by decide⟩

/-! ## Page moves -/

/-- Inside the viewport `n` single steps down end at `min (cy + n) (rows - 1)`. -/
theorem moveTimes_down (n : Nat) (E : editorConfig) (h : E.cy ≤ E.screenrows - 1) :
    moveTimes ARROW_DOWN n E = { E with cy := min (E.cy + n) (E.screenrows - 1) } := by
  induction n generalizing E with
  | zero =>
    obtain ⟨cx, cy, rows, cols, t⟩ := E
    simp only at h
    simp [moveTimes, h]
  | succ n ih =>
    obtain ⟨cx, cy, rows, cols, t⟩ := E
    simp only at h
    by_cases hc : cy = rows - 1
    · have e : editorMoveCursor ARROW_DOWN ⟨cx, cy, rows, cols, t⟩ = ⟨cx, cy, rows, cols, t⟩ := by
        simp [editorMoveCursor, ARROW_DOWN, ARROW_LEFT, ARROW_RIGHT, ARROW_UP, hc]
      rw [moveTimes, e, ih _ h]
      simp only [editorConfig.mk.injEq, true_and, and_true]
      push_cast
      omega
    · have e : editorMoveCursor ARROW_DOWN ⟨cx, cy, rows, cols, t⟩ =
          ⟨cx, cy + 1, rows, cols, t⟩ := by
        simp [editorMoveCursor, ARROW_DOWN, ARROW_LEFT, ARROW_RIGHT, ARROW_UP, hc]
      rw [moveTimes, e, ih _ (by simp only; omega)]
      simp only [editorConfig.mk.injEq, true_and, and_true]
      push_cast
      omega

/-- Inside the viewport `n` single steps up end at `max (cy - n) 0`. -/
theorem moveTimes_up (n : Nat) (E : editorConfig) (h : 0 ≤ E.cy) :
    moveTimes ARROW_UP n E = { E with cy := max (E.cy - n) 0 } := by
  induction n generalizing E with
  | zero =>
    obtain ⟨cx, cy, rows, cols, t⟩ := E
    simp only at h
    simp [moveTimes, h]
  | succ n ih =>
    obtain ⟨cx, cy, rows, cols, t⟩ := E
    simp only at h
    by_cases hc : cy = 0
    · have e : editorMoveCursor ARROW_UP ⟨cx, cy, rows, cols, t⟩ = ⟨cx, cy, rows, cols, t⟩ := by
        simp [editorMoveCursor, ARROW_LEFT, ARROW_RIGHT, ARROW_UP, hc]
      rw [moveTimes, e, ih _ h]
      simp only [editorConfig.mk.injEq, true_and, and_true]
      push_cast
      omega
    · have e : editorMoveCursor ARROW_UP ⟨cx, cy, rows, cols, t⟩ =
          ⟨cx, cy - 1, rows, cols, t⟩ := by
        simp [editorMoveCursor, ARROW_LEFT, ARROW_RIGHT, ARROW_UP, hc]
      rw [moveTimes, e, ih _ (by simp only; omega)]
      simp only [editorConfig.mk.injEq, true_and, and_true]
      push_cast
      omega

/-- The page loop runs `times` times for a counter in `0 .. INT_MAX`. -/
theorem loopCount_of_int (t : Int) (h0 : 0 ≤ t) (h1 : t ≤ INT_MAX) :
    loopCount t = t.toNat := by
  unfold INT_MAX at h1
  unfold loopCount
  rw [Int.emod_eq_of_lt h0 (by omega)]

/-- C11. Page moves are composite: in a viewport with `rows > 0` (`rows` a C
`int`) and a cursor row inside it, the `switch` handles PageDown (PageUp) by
running `editorMoveCursor` with ArrowDown (ArrowUp) `rows` times in a row, and
that ends at `cy = rows-1` (`cy = 0`) with everything else, `cx` included, as it
was. -/
theorem C11_page_move_is_rows_single_steps (E : editorConfig)
    (hrows : 0 < E.screenrows) (hint : E.screenrows ≤ INT_MAX)
    (hy : 0 ≤ E.cy ∧ E.cy < E.screenrows) :
    editorHandleKey PAGE_DOWN E = .running (moveTimes ARROW_DOWN E.screenrows.toNat E) ∧
    moveTimes ARROW_DOWN E.screenrows.toNat E = { E with cy := E.screenrows - 1 } ∧
    editorHandleKey PAGE_UP E = .running (moveTimes ARROW_UP E.screenrows.toNat E) ∧
    moveTimes ARROW_UP E.screenrows.toNat E = { E with cy := 0 } := by
  have hl := loopCount_of_int E.screenrows (le_of_lt hrows) hint
  have hn : ((E.screenrows.toNat : Nat) : Int) = E.screenrows := Int.toNat_of_nonneg (le_of_lt hrows)
  refine ⟨?_, ?_, ?_, ?_⟩
  · simp [editorHandleKey, CTRL_KEY_q, PAGE_DOWN, PAGE_UP, HOME_KEY, END_KEY, hl]
  · rw [moveTimes_down _ _ (by omega), hn]
    congr 1
    omega
  · simp [editorHandleKey, CTRL_KEY_q, PAGE_UP, HOME_KEY, END_KEY, hl]
  · rw [moveTimes_up _ _ hy.1, hn]
    congr 1
    omega

theorem C11_page_move_is_rows_single_steps_witness :
    editorHandleKey PAGE_DOWN view24x80 = .running { view24x80 with cy := 23 } :=
  (C11_page_move_is_rows_single_steps view24x80 (by decide) (by decide) (by decide)).1.trans
    (congrArg KeyOutcome.running
      (C11_page_move_is_rows_single_steps view24x80 (by decide) (by decide) (by decide)).2.1)

/-! ## Rendering: lemmas -/

theorem abAppend_ok (allocOk : Nat → Bool) (hmem : ∀ n, allocOk n = true)
    (ab s : List Nat) (len : Nat) : abAppend allocOk ab s len = ab ++ s.take len := by
  simp [abAppend, hmem]

theorem appendSpaces_ok (allocOk : Nat → Bool) (hmem : ∀ n, allocOk n = true)
    (n : Nat) (ab : List Nat) :
    appendSpaces allocOk n ab = ab ++ List.replicate n 0x20 := by
  induction n generalizing ab with
  | zero => simp [appendSpaces]
  | succ n ih =>
    rw [appendSpaces, ih, abAppend_ok allocOk hmem]
    simp [List.replicate_succ]

theorem welcomeText_length : welcomeText.length = 28 := by decide

/-- With memory available the first part of the loop body appends the row content
of the specification. -/
theorem drawRowContent_ok (allocOk : Nat → Bool) (hmem : ∀ n, allocOk n = true)
    (cx cy : Int) (t : termios) (R C : Nat) (hC : (C : Int) ≤ INT_MAX) (y : Nat)
    (ab : List Nat) :
    drawRowContent allocOk ⟨cx, cy, (R : Int), (C : Int), t⟩ (y : Int) ab =
      ab ++ rowContent R C y := by
  unfold INT_MAX at hC
  have h3 : Int.tdiv (R : Int) 3 = ((R / 3 : Nat) : Int) := by
    rw [Int.tdiv_eq_ediv (by omega) (by omega)]
    omega
  unfold drawRowContent rowContent
  simp only [h3, Nat.cast_inj, welcomeText_length]
  by_cases hy : y = R / 3
  · simp only [hy, if_true]
    have hL : (if ((28 : Nat) : Int) > (C : Int) then (C : Int) else ((28 : Nat) : Int)) =
        ((min 28 C : Nat) : Int) := by
      split_ifs <;> omega
    rw [hL]
    have hP : Int.tdiv ((C : Int) - ((min 28 C : Nat) : Int)) 2 =
        (((C - min 28 C) / 2 : Nat) : Int) := by
      rw [Int.tdiv_eq_ediv (by omega) (by omega)]
      omega
    rw [hP]
    simp only [Int.toNat_ofNat]
    by_cases hp : (C - min 28 C) / 2 = 0
    · have hl : loopCount (((C - min 28 C) / 2 : Nat) : Int) = 0 := by
        rw [hp]; rfl
      simp [hp, hl, appendSpaces, abAppend_ok allocOk hmem]
    · have hp1 : ¬ ((((C - min 28 C) / 2 : Nat) : Int) = 0) := by omega
      have hl : loopCount ((((C - min 28 C) / 2 : Nat) : Int) - 1) = (C - min 28 C) / 2 - 1 := by
        rw [loopCount_of_int _ (by omega) (by unfold INT_MAX; omega)]
        omega
      simp only [ne_eq, hp1, not_false_eq_true, if_true, hl, hp, if_false]
      rw [appendSpaces_ok allocOk hmem, abAppend_ok allocOk hmem, abAppend_ok allocOk hmem]
      simp
  · simp only [hy, if_false]
    rw [abAppend_ok allocOk hmem]
    simp

/-- The lengths behind the layout of the welcome row. -/
theorem rowContent_length (R C y : Nat) (hC : 0 < C) :
    (rowContent R C y).length =
      if y = R / 3 then (C - min 28 C) / 2 + min 28 C else 1 := by
  unfold rowContent
  by_cases hy : y = R / 3
  · simp only [hy, if_true]
    by_cases hp : (C - min 28 C) / 2 = 0
    · simp [hp, welcomeText_length]
    · simp only [hp, if_false, List.length_append, List.length_cons, List.length_replicate,
        List.length_take, welcomeText_length]
      omega
  · simp [hy]


theorem editorConfig_eq_cast (E : editorConfig) (hr : 0 ≤ E.screenrows)
    (hc : 0 ≤ E.screencols) :
    E = ⟨E.cx, E.cy, ((E.screenrows.toNat : Nat) : Int), ((E.screencols.toNat : Nat) : Int),
      E.orig_termios⟩ := by
  rw [Int.toNat_of_nonneg hr, Int.toNat_of_nonneg hc]

/-- With memory available the loop body appends one row of the frame. -/
theorem drawRow_ok (allocOk : Nat → Bool) (hmem : ∀ n, allocOk n = true)
    (cx cy : Int) (t : termios) (R C : Nat) (hC : (C : Int) ≤ INT_MAX) (y : Nat)
    (ab : List Nat) :
    drawRow allocOk ⟨cx, cy, (R : Int), (C : Int), t⟩ (y : Int) ab = ab ++ rowBytes R C y := by
  unfold drawRow rowBytes
  simp only [drawRowContent_ok allocOk hmem cx cy t R C hC y ab, abAppend_ok allocOk hmem]
  have e : ((y : Int) < (R : Int) - 1) ↔ (y + 1 < R) := by omega
  by_cases h : y + 1 < R
  · simp [h, e, eraseLine, lineBreak]
  · simp [h, e, eraseLine]

theorem drawRowsFrom_ok (allocOk : Nat → Bool) (hmem : ∀ n, allocOk n = true)
    (cx cy : Int) (t : termios) (R C : Nat) (hC : (C : Int) ≤ INT_MAX) (n y : Nat)
    (ab : List Nat) :
    drawRowsFrom allocOk ⟨cx, cy, (R : Int), (C : Int), t⟩ n y ab =
      ab ++ rowsBytes R C n y := by
  induction n generalizing y ab with
  | zero => simp [drawRowsFrom, rowsBytes]
  | succ n ih =>
    rw [drawRowsFrom, drawRow_ok allocOk hmem cx cy t R C hC, ih, rowsBytes]
    simp

/-- With memory available `editorDrawRows` appends the rows of the frame. -/
theorem editorDrawRows_ok (allocOk : Nat → Bool) (hmem : ∀ n, allocOk n = true)
    (E : editorConfig) (hr : 0 ≤ E.screenrows) (hc : 0 ≤ E.screencols)
    (hC : E.screencols ≤ INT_MAX) (ab : List Nat) :
    editorDrawRows allocOk E ab =
      ab ++ rowsBytes E.screenrows.toNat E.screencols.toNat E.screenrows.toNat 0 := by
  have hC1 : ((E.screencols.toNat : Nat) : Int) ≤ INT_MAX := by
    rw [Int.toNat_of_nonneg hc]; exact hC
  have e := drawRowsFrom_ok allocOk hmem E.cx E.cy E.orig_termios E.screenrows.toNat
    E.screencols.toNat hC1 E.screenrows.toNat 0 ab
  rw [← editorConfig_eq_cast E hr hc] at e
  exact e

/-! ## Rendering: the welcome row -/

/-- C20. Welcome row layout: in a viewport with `rows > 0` and `cols > 0` (`cols`
a C `int`), with memory available, what the loop body of `editorDrawRows` appends
before the erase marker is, for the row `rows/3` (which is one of the rows), the
welcome text cut to `L = min(28, cols)` bytes behind `P = (cols - L)/2` padding
bytes, a tilde followed by spaces (nothing when `P = 0`), and for every other row
one tilde; the content is never longer than `cols`, and the margins `P` left and
`cols - L - P` right of the text differ by at most one. -/
theorem C20_welcome_row_layout (allocOk : Nat → Bool) (E : editorConfig) (y : Nat)
    (ab : List Nat) (hmem : ∀ n, allocOk n = true)
    (hrows : 0 < E.screenrows) (hcols : 0 < E.screencols) (hint : E.screencols ≤ INT_MAX) :
    drawRowContent allocOk E (y : Int) ab =
      ab ++ rowContent E.screenrows.toNat E.screencols.toNat y ∧
    rowContent E.screenrows.toNat E.screencols.toNat (E.screenrows.toNat / 3) =
      (if (E.screencols.toNat - min 28 E.screencols.toNat) / 2 = 0 then []
        else 0x7e :: List.replicate
          ((E.screencols.toNat - min 28 E.screencols.toNat) / 2 - 1) 0x20)
        ++ welcomeText.take (min 28 E.screencols.toNat) ∧
    (y ≠ E.screenrows.toNat / 3 →
      rowContent E.screenrows.toNat E.screencols.toNat y = [0x7e]) ∧
    E.screenrows.toNat / 3 < E.screenrows.toNat ∧
    (rowContent E.screenrows.toNat E.screencols.toNat y).length ≤ E.screencols.toNat ∧
    (E.screencols.toNat - min 28 E.screencols.toNat) / 2 ≤
      E.screencols.toNat - min 28 E.screencols.toNat -
        (E.screencols.toNat - min 28 E.screencols.toNat) / 2 ∧
    E.screencols.toNat - min 28 E.screencols.toNat -
        (E.screencols.toNat - min 28 E.screencols.toNat) / 2 ≤
      (E.screencols.toNat - min 28 E.screencols.toNat) / 2 + 1 := by
  have hC1 : ((E.screencols.toNat : Nat) : Int) ≤ INT_MAX := by
    rw [Int.toNat_of_nonneg (le_of_lt hcols)]; exact hint
  have hR : 0 < E.screenrows.toNat := by omega
  have hCp : 0 < E.screencols.toNat := by omega
  refine ⟨?_, ?_, ?_, ?_, ?_, ?_, ?_⟩
  · have e := drawRowContent_ok allocOk hmem E.cx E.cy E.orig_termios E.screenrows.toNat
      E.screencols.toNat hC1 y ab
    rw [← editorConfig_eq_cast E (le_of_lt hrows) (le_of_lt hcols)] at e
    exact e
  · simp [rowContent]
  · intro hy
    simp [rowContent, hy]
  · omega
  · rw [rowContent_length _ _ _ hCp]
    split_ifs <;> omega
  · omega
  · omega

theorem C20_welcome_row_layout_witness :
    drawRowContent (fun _ => true) view24x80 ((8 : Nat) : Int) [] =
      [] ++ rowContent view24x80.screenrows.toNat view24x80.screencols.toNat 8 :=
  (C20_welcome_row_layout (fun _ => true) view24x80 8 [] (fun _ => rfl) (by decide)
    (by decide) (by decide)).1


/-! ## Rendering: decimal numbers -/

theorem decimal_bytes (n : Nat) : ∀ d ∈ decimal n, 0x30 ≤ d ∧ d ≤ 0x39 := by
  intro d hd
  unfold decimal at hd
  split_ifs at hd with h
  · simp only [List.mem_singleton] at hd
    omega
  · simp only [List.mem_map, List.mem_reverse] at hd
    obtain ⟨a, ha, rfl⟩ := hd
    have := Nat.digits_lt_base (by norm_num : 1 < 10) ha
    omega

theorem decimal_ne_nil (n : Nat) : decimal n ≠ [] := by
  unfold decimal
  split_ifs with h
  · simp
  · simp only [ne_eq, List.map_eq_nil_iff, List.reverse_eq_nil_iff]
    exact fun e => h (Nat.digits_eq_nil_iff_eq_zero.mp e)

theorem decimal_length_le (n : Nat) (h : n < 10000000000) : (decimal n).length ≤ 10 := by
  unfold decimal
  split_ifs with h0
  · simp
  · simp only [List.length_map, List.length_reverse]
    by_contra hlen
    have h1 := Nat.base_pow_length_digits_le 10 n (by norm_num) h0
    have h2 : 10 ^ 11 ≤ 10 ^ (Nat.digits 10 n).length :=
      Nat.pow_le_pow_right (by norm_num) (by omega)
    omega

theorem cString_of_nonzero (l : List Nat) (h : ∀ b ∈ l, b ≠ 0) : cString l = l := by
  induction l with
  | nil => rfl
  | cons b bs ih =>
    have hb : b ≠ 0 := h b (List.mem_cons_self _ _)
    simp only [cString, hb, if_false]
    rw [ih (fun x hx => h x (List.mem_cons_of_mem _ hx))]

/-- For a cursor position in `1 .. INT_MAX` the 32 byte array holds the whole
escape sequence, and no NUL byte before its end. -/
theorem cursorSeq_eq (row col : Int) (hr : 0 < row ∧ row ≤ INT_MAX)
    (hc : 0 < col ∧ col ≤ INT_MAX) :
    cursorSeq row col =
      [0x1b, 0x5b] ++ decimal row.toNat ++ [0x3b] ++ decimal col.toNat ++ [0x48] ∧
    cString (cursorSeq row col) = cursorSeq row col := by
  unfold INT_MAX at hr hc
  have e : cursorSeq row col =
      [0x1b, 0x5b] ++ decimal row.toNat ++ [0x3b] ++ decimal col.toNat ++ [0x48] := by
    unfold cursorSeq formatInt
    rw [if_neg (by omega), if_neg (by omega)]
    apply List.take_of_length_le
    have h1 := decimal_length_le row.toNat (by omega)
    have h2 := decimal_length_le col.toNat (by omega)
    simp only [List.length_append, List.length_cons, List.length_nil]
    omega
  refine ⟨e, ?_⟩
  apply cString_of_nonzero
  rw [e]
  intro b hb
  simp only [List.mem_append, List.mem_cons, List.mem_singleton, List.not_mem_nil,
    or_false] at hb
  rcases hb with (((h | h) | h) | h) | h
  · rcases h with h | h <;> omega
  · have := decimal_bytes _ b h; omega
  · omega
  · have := decimal_bytes _ b h; omega
  · omega

/-! ## Rendering: the frame -/

/-- C12. Frame structure: in a viewport with `rows > 0` and `cols > 0` (both C
`int`s) and a cursor inside it, with memory available, the bytes
`editorRefreshScreen` hands to `write` are exactly `ESC[?25l`, `ESC[H`, the bytes
`editorDrawRows` produces, `ESC[<cy+1>;<cx+1>H` with both numbers in decimal,
and `ESC[?25h`; the function returns whatever `write` returns. -/
theorem C12_frame_structure (allocOk : Nat → Bool) (E : editorConfig) (wret : Int)
    (hmem : ∀ n, allocOk n = true)
    (hrows : 0 < E.screenrows ∧ E.screenrows ≤ INT_MAX)
    (hcols : 0 < E.screencols ∧ E.screencols ≤ INT_MAX)
    (hx : 0 ≤ E.cx ∧ E.cx < E.screencols) (hy : 0 ≤ E.cy ∧ E.cy < E.screenrows) :
    editorRefreshScreen allocOk E wret = .returned (frameBytes allocOk E) ∧
    frameBytes allocOk E =
      hideCursor ++ cursorHome ++ editorDrawRows allocOk E [] ++
        ([0x1b, 0x5b] ++ decimal (E.cy + 1).toNat ++ [0x3b] ++ decimal (E.cx + 1).toNat ++
          [0x48]) ++ showCursor := by
  refine ⟨rfl, ?_⟩
  obtain ⟨e1, e2⟩ := cursorSeq_eq (E.cy + 1) (E.cx + 1) (by omega) (by omega)
  have t1 : hideCursor.take 6 = hideCursor := rfl
  have t2 : cursorHome.take 3 = cursorHome := rfl
  have t3 : showCursor.take 6 = showCursor := rfl
  unfold frameBytes
  simp only [abAppend_ok allocOk hmem, e2, List.take_length, t1, t2, t3]
  rw [editorDrawRows_ok allocOk hmem E (by omega) (by omega) hcols.2,
    editorDrawRows_ok allocOk hmem E (by omega) (by omega) hcols.2, e1]
  simp only [List.nil_append, List.append_assoc]

theorem C12_frame_structure_witness :
    frameBytes (fun _ => true) view24x80 =
      hideCursor ++ cursorHome ++ editorDrawRows (fun _ => true) view24x80 [] ++
        ([0x1b, 0x5b] ++ decimal (view24x80.cy + 1).toNat ++ [0x3b] ++
          decimal (view24x80.cx + 1).toNat ++ [0x48]) ++ showCursor :=
  (C12_frame_structure (fun _ => true) view24x80 0 (fun _ => rfl) (by decide) (by decide)
    (by decide) (by decide)).2


/-! ## Rendering: counting markers -/

/-- Bytes other than the first byte of the pattern start no occurrence. -/
theorem occurrences_skip (h : Nat) (ps a b : List Nat) (ha : ∀ x ∈ a, x ≠ h) :
    occurrences (h :: ps) (a ++ b) = occurrences (h :: ps) b := by
  induction a with
  | nil => rfl
  | cons x xs ih =>
    have hx : x ≠ h := ha x (List.mem_cons_self _ _)
    have hne : (h == x) = false := by simp [Ne.symm hx]
    rw [List.cons_append, occurrences, startsWith, hne, Bool.false_and,
      ih (fun y hy => ha y (List.mem_cons_of_mem _ hy))]
    simp

theorem rowContent_bytes (R C y : Nat) :
    ∀ x ∈ rowContent R C y, x ≠ 0x1b ∧ x ≠ 0x0d := by
  have hw : ∀ x ∈ welcomeText, x ≠ 0x1b ∧ x ≠ 0x0d := by decide
  intro x hx
  unfold rowContent at hx
  split_ifs at hx with h1 h2
  · simp only [List.nil_append] at hx
    exact hw x (List.mem_of_mem_take hx)
  · simp only [List.mem_append, List.mem_cons, List.mem_replicate] at hx
    rcases hx with (h | h) | h
    · omega
    · omega
    · exact hw x (List.mem_of_mem_take h)
  · simp only [List.mem_singleton] at hx
    omega

theorem occurrences_eraseLine_row (R C y : Nat) (tail : List Nat) :
    occurrences eraseLine (rowBytes R C y ++ tail) = 1 + occurrences eraseLine tail := by
  unfold rowBytes
  rw [List.append_assoc, List.append_assoc]
  unfold eraseLine
  rw [occurrences_skip _ _ _ _ (fun x hx => (rowContent_bytes R C y x hx).1)]
  have step : ∀ l : List Nat, occurrences [0x1b, 0x5b, 0x4b] ([0x1b, 0x5b, 0x4b] ++ l) =
      1 + occurrences [0x1b, 0x5b, 0x4b] l := by
    intro l
    simp [occurrences, startsWith]
  rw [step]
  split_ifs
  · rw [occurrences_skip _ _ lineBreak _ (by decide)]
  · rfl

theorem occurrences_lineBreak_row (R C y : Nat) (tail : List Nat) :
    occurrences lineBreak (rowBytes R C y ++ tail) =
      (if y + 1 < R then 1 else 0) + occurrences lineBreak tail := by
  unfold rowBytes
  rw [List.append_assoc, List.append_assoc]
  unfold lineBreak
  rw [occurrences_skip _ _ _ _ (fun x hx => (rowContent_bytes R C y x hx).2),
    occurrences_skip _ _ eraseLine _ (by decide)]
  split_ifs
  · simp [occurrences, startsWith]
  · simp

theorem occurrences_eraseLine_rows (R C n y : Nat) (tail : List Nat) :
    occurrences eraseLine (rowsBytes R C n y ++ tail) = n + occurrences eraseLine tail := by
  induction n generalizing y with
  | zero => simp [rowsBytes]
  | succ n ih =>
    rw [rowsBytes, List.append_assoc, occurrences_eraseLine_row, ih]
    omega

theorem occurrences_lineBreak_rows (R C n y : Nat) (tail : List Nat) :
    occurrences lineBreak (rowsBytes R C n y ++ tail) =
      (min (y + n) (R - 1) - min y (R - 1)) + occurrences lineBreak tail := by
  induction n generalizing y with
  | zero => simp [rowsBytes]
  | succ n ih =>
    rw [rowsBytes, List.append_assoc, occurrences_lineBreak_row, ih]
    split_ifs <;> omega


theorem formatInt_bytes (z : Int) :
    ∀ x ∈ formatInt z, x = 0x2d ∨ (0x30 ≤ x ∧ x ≤ 0x39) := by
  intro x hx
  unfold formatInt at hx
  split_ifs at hx
  · simp only [List.mem_cons] at hx
    rcases hx with h | h
    · exact Or.inl h
    · exact Or.inr (decimal_bytes _ x h)
  · exact Or.inr (decimal_bytes _ x hx)

theorem formatInt_ne_nil (z : Int) : formatInt z ≠ [] := by
  unfold formatInt
  split_ifs
  · simp
  · exact decimal_ne_nil _

/-- The cursor sequence, however long the numbers: `ESC [` and then bytes none of
which is NUL, ESC or CR, the first of them not `K`. -/
theorem cursorSeq_shape (row col : Int) :
    ∃ d ds, cursorSeq row col = 0x1b :: 0x5b :: d :: ds ∧ d ≠ 0x4b ∧
      ∀ x ∈ d :: ds, x ≠ 0 ∧ x ≠ 0x1b ∧ x ≠ 0x0d := by
  have hbody : ∀ x ∈ formatInt row ++ [0x3b] ++ formatInt col ++ [0x48],
      x ≠ 0 ∧ x ≠ 0x1b ∧ x ≠ 0x0d ∧ x ≠ 0x4b := by
    intro x hx
    simp only [List.mem_append, List.mem_singleton] at hx
    rcases hx with ((h | h) | h) | h
    · rcases formatInt_bytes _ x h with h1 | h1 <;> omega
    · omega
    · rcases formatInt_bytes _ x h with h1 | h1 <;> omega
    · omega
  obtain ⟨d, fs, hf⟩ : ∃ d fs, formatInt row = d :: fs := by
    cases h : formatInt row with
    | nil => exact absurd h (formatInt_ne_nil row)
    | cons d fs => exact ⟨d, fs, rfl⟩
  refine ⟨d, (fs ++ [0x3b] ++ formatInt col ++ [0x48]).take 28, ?_, ?_, ?_⟩
  · unfold cursorSeq
    rw [hf]
    simp
  · have := hbody d (by rw [hf]; simp)
    omega
  · intro x hx
    have hx1 : x ∈ formatInt row ++ [0x3b] ++ formatInt col ++ [0x48] := by
      rw [hf]
      simp only [List.mem_cons] at hx
      rcases hx with h | h
      · simp [h]
      · have := List.mem_of_mem_take h
        simp only [List.cons_append, List.mem_cons]
        exact Or.inr this
    have := hbody x hx1
    omega

/-- With memory available the frame is the two leading sequences, the rows, the
cursor sequence and the show-cursor sequence. -/
theorem frameBytes_ok (allocOk : Nat → Bool) (hmem : ∀ n, allocOk n = true)
    (E : editorConfig) (hr : 0 ≤ E.screenrows) (hc : 0 ≤ E.screencols)
    (hC : E.screencols ≤ INT_MAX) :
    frameBytes allocOk E =
      hideCursor ++ (cursorHome ++
        (rowsBytes E.screenrows.toNat E.screencols.toNat E.screenrows.toNat 0 ++
          (cursorSeq (E.cy + 1) (E.cx + 1) ++ showCursor))) := by
  obtain ⟨d, ds, e, -, hb⟩ := cursorSeq_shape (E.cy + 1) (E.cx + 1)
  have e2 : cString (cursorSeq (E.cy + 1) (E.cx + 1)) = cursorSeq (E.cy + 1) (E.cx + 1) := by
    apply cString_of_nonzero
    rw [e]
    intro b hb1
    simp only [List.mem_cons] at hb1
    rcases hb1 with h | h | h
    · omega
    · omega
    · exact (hb b (List.mem_cons.mpr h)).1
  have t1 : hideCursor.take 6 = hideCursor := rfl
  have t2 : cursorHome.take 3 = cursorHome := rfl
  have t3 : showCursor.take 6 = showCursor := rfl
  unfold frameBytes
  simp only [abAppend_ok allocOk hmem, e2, List.take_length, t1, t2, t3]
  rw [editorDrawRows_ok allocOk hmem E hr hc hC]
  simp only [List.nil_append, List.append_assoc]

/-- C13. Row markers: in a viewport with `rows > 0` and `cols > 0` (`cols` a C
`int`), with memory available, the rows of the frame are, one after the other,
the row content (which holds no ESC and no CR), the erase sequence `ESC[K` and,
unless the row is the last one, the line break CR LF; the whole frame holds
exactly `rows` occurrences of `ESC[K` and exactly `rows - 1` of CR LF. -/
theorem C13_row_markers (allocOk : Nat → Bool) (E : editorConfig)
    (hmem : ∀ n, allocOk n = true)
    (hrows : 0 < E.screenrows) (hcols : 0 < E.screencols) (hint : E.screencols ≤ INT_MAX) :
    editorDrawRows allocOk E [] =
      rowsBytes E.screenrows.toNat E.screencols.toNat E.screenrows.toNat 0 ∧
    (∀ y : Nat, rowBytes E.screenrows.toNat E.screencols.toNat y =
      rowContent E.screenrows.toNat E.screencols.toNat y ++ eraseLine ++
        (if y + 1 < E.screenrows.toNat then lineBreak else []) ∧
      ∀ x ∈ rowContent E.screenrows.toNat E.screencols.toNat y, x ≠ 0x1b ∧ x ≠ 0x0d) ∧
    occurrences eraseLine (frameBytes allocOk E) = E.screenrows.toNat ∧
    occurrences lineBreak (frameBytes allocOk E) = E.screenrows.toNat - 1 := by
  obtain ⟨d, ds, e, hd, hb⟩ := cursorSeq_shape (E.cy + 1) (E.cx + 1)
  have hf := frameBytes_ok allocOk hmem E (le_of_lt hrows) (le_of_lt hcols) hint
  refine ⟨?_, fun y => ⟨rfl, rowContent_bytes _ _ y⟩, ?_, ?_⟩
  · rw [editorDrawRows_ok allocOk hmem E (le_of_lt hrows) (le_of_lt hcols) hint]
    rfl
  · have head : ∀ l : List Nat, occurrences eraseLine (hideCursor ++ (cursorHome ++ l)) =
        occurrences eraseLine l := by
      intro l
      simp [occurrences, startsWith, eraseLine, hideCursor, cursorHome]
    have tail : occurrences eraseLine (cursorSeq (E.cy + 1) (E.cx + 1) ++ showCursor) = 0 := by
      rw [e]
      simp only [List.cons_append]
      have first : startsWith eraseLine (0x1b :: 0x5b :: d :: (ds ++ showCursor)) = false := by
        simp [eraseLine, startsWith, Ne.symm hd]
      rw [occurrences, first]
      have second := occurrences_skip 0x1b [0x5b, 0x4b] (0x5b :: d :: ds) showCursor
        (by
          intro x hx
          simp only [List.mem_cons] at hx
          rcases hx with h | h
          · omega
          · exact (hb x (List.mem_cons.mpr h)).2.1)
      simp only [List.cons_append] at second
      unfold eraseLine
      rw [second]
      decide
    rw [hf, head, occurrences_eraseLine_rows, tail]
    omega
  · have head : ∀ l : List Nat, occurrences lineBreak (hideCursor ++ (cursorHome ++ l)) =
        occurrences lineBreak l := by
      intro l
      simp [occurrences, startsWith, lineBreak, hideCursor, cursorHome]
    have tail : occurrences lineBreak (cursorSeq (E.cy + 1) (E.cx + 1) ++ showCursor) = 0 := by
      rw [e]
      have skip := occurrences_skip 0x0d [0x0a] (0x1b :: 0x5b :: d :: ds) showCursor
        (by
          intro x hx
          simp only [List.mem_cons] at hx
          rcases hx with h | h | h
          · omega
          · omega
          · exact (hb x (List.mem_cons.mpr h)).2.2)
      unfold lineBreak
      rw [skip]
      decide
    rw [hf, head, occurrences_lineBreak_rows, tail]
    omega

theorem C13_row_markers_witness :
    occurrences eraseLine (frameBytes (fun _ => true) view24x80) =
      view24x80.screenrows.toNat :=
  (C13_row_markers (fun _ => true) view24x80 (fun _ => rfl) (by decide) (by decide)
    (by decide)).2.2.1


/-! ## Window size: the two paths -/

/-- C17. Direct query first: when the size query succeeds with a column count
other than 0, `getWindowSize` returns 0 with exactly the queried rows and
columns, hands nothing to `write` and leaves the input alone, whatever the
probe writes would have returned; when the query fails or reports 0 columns it
runs the fallback, which always begins with the `write` of the corner request;
so something is written exactly when the query fails or reports 0 columns; and
a `write` of a probe that is not complete (a result other than 12 for the
first, other than 4 for the second) makes `getWindowSize` return -1 without a
read. -/
theorem C17_direct_query_first (ioctl : Option (Nat × Nat)) (wsRow wsCol : Nat)
    (w1 w2 : Int) (litByte : Nat) (mem : List Nat) (rows cols : Int)
    (input : List ReadResult) :
    getWindowSize (some (wsRow, wsCol + 1)) w1 w2 litByte mem rows cols input =
      { ret := 0, rows := (wsRow : Int), cols := ((wsCol + 1 : Nat) : Int), written := [],
        rest := input } ∧
    getWindowSize none w1 w2 litByte mem rows cols input =
      windowSizeFallback w1 w2 litByte mem rows cols input ∧
    getWindowSize (some (wsRow, 0)) w1 w2 litByte mem rows cols input =
      windowSizeFallback w1 w2 litByte mem rows cols input ∧
    (windowSizeFallback w1 w2 litByte mem rows cols input).written.head? =
      some cornerRequest ∧
    ((getWindowSize ioctl w1 w2 litByte mem rows cols input).written ≠ [] ↔
      (ioctl = none ∨ ∃ r, ioctl = some (r, 0))) ∧
    (w1 ≠ 12 →
      getWindowSize none w1 w2 litByte mem rows cols input =
        { ret := -1, rows := rows, cols := cols, written := [cornerRequest],
          rest := input } ∧
      getWindowSize (some (wsRow, 0)) w1 w2 litByte mem rows cols input =
        { ret := -1, rows := rows, cols := cols, written := [cornerRequest],
          rest := input }) ∧
    (w1 = 12 → w2 ≠ 4 →
      getWindowSize none w1 w2 litByte mem rows cols input =
        { ret := -1, rows := rows, cols := cols,
          written := [cornerRequest, positionRequest], rest := input } ∧
      getWindowSize (some (wsRow, 0)) w1 w2 litByte mem rows cols input =
        { ret := -1, rows := rows, cols := cols,
          written := [cornerRequest, positionRequest], rest := input }) := by
  have hhead : (windowSizeFallback w1 w2 litByte mem rows cols input).written.head? =
      some cornerRequest := by
    unfold windowSizeFallback
    split_ifs <;> rfl
  have hne : (windowSizeFallback w1 w2 litByte mem rows cols input).written ≠ [] := by
    intro h
    rw [h] at hhead
    simp at hhead
  have h0 : getWindowSize (some (wsRow, 0)) w1 w2 litByte mem rows cols input =
      windowSizeFallback w1 w2 litByte mem rows cols input := by
    simp [getWindowSize]
  refine ⟨?_, rfl, h0, hhead, ?_, ?_, ?_⟩
  · simp [getWindowSize]
  · cases ioctl with
    | none =>
      simp only [true_or, iff_true]
      exact hne
    | some q =>
      obtain ⟨r, c⟩ := q
      by_cases hc : c = 0
      · subst hc
        have e : getWindowSize (some (r, 0)) w1 w2 litByte mem rows cols input =
            windowSizeFallback w1 w2 litByte mem rows cols input := by
          simp [getWindowSize]
        rw [e]
        simp only [ne_eq, hne, not_false_eq_true, true_iff]
        exact Or.inr ⟨r, rfl⟩
      · simp [getWindowSize, hc]
  · intro hw
    have e : windowSizeFallback w1 w2 litByte mem rows cols input =
        { ret := -1, rows := rows, cols := cols, written := [cornerRequest],
          rest := input } := by
      simp [windowSizeFallback, hw]
    rw [h0]
    exact ⟨e, e⟩
  · intro hw1 hw2
    have e : windowSizeFallback w1 w2 litByte mem rows cols input =
        { ret := -1, rows := rows, cols := cols,
          written := [cornerRequest, positionRequest], rest := input } := by
      simp [windowSizeFallback, hw1, getCursorPosition, hw2]
    rw [h0]
    exact ⟨e, e⟩

theorem C17_direct_query_first_witness :
    getWindowSize (some (24, 80)) 12 4 0 [] 0 0 [.byte 0x61] =
      { ret := 0, rows := ((24 : Nat) : Int), cols := ((79 + 1 : Nat) : Int), written := [],
        rest := [.byte 0x61] } ∧
    getWindowSize none 5 4 0 [] 0 0 [.byte 0x61] =
      { ret := -1, rows := 0, cols := 0, written := [cornerRequest],
        rest := [.byte 0x61] } :=
  ⟨(C17_direct_query_first none 24 79 12 4 0 [] 0 0 [.byte 0x61]).1,
    ((C17_direct_query_first none 24 79 5 4 0 [] 0 0 [.byte 0x61]).2.2.2.2.2.1
      (by decide)).1⟩

/-! ## Window size: scanning the reply -/

theorem scanDigits_append (ds tail : List Nat) (acc : Nat)
    (hd : ∀ d ∈ ds, isDigit d = true) (ht : stopsNumber tail) :
    scanDigits (ds ++ tail) acc =
      (ds.foldl (fun a d => 10 * a + (d - 0x30)) acc, tail) := by
  induction ds generalizing acc with
  | nil =>
    cases tail with
    | nil => rfl
    | cons b t =>
      have := ht b t rfl
      simp [scanDigits, this]
  | cons d ds ih =>
    have h1 : isDigit d = true := hd d (List.mem_cons_self _ _)
    simp only [List.cons_append, scanDigits, h1, if_true, List.foldl_cons]
    exact ih _ (fun x hx => hd x (List.mem_cons_of_mem _ hx))

theorem decimal_isDigit (n : Nat) : ∀ d ∈ decimal n, isDigit d = true := by
  intro d hd
  have := decimal_bytes n d hd
  simp [isDigit, this]

theorem foldr_digits (l : List Nat) :
    l.foldr (fun d a => 10 * a + (d + 0x30 - 0x30)) 0 = Nat.ofDigits 10 l := by
  induction l with
  | nil => rfl
  | cons d ds ih =>
    rw [List.foldr_cons, ih, Nat.ofDigits_cons]
    simp only [Nat.add_sub_cancel, Nat.cast_id]
    omega

/-- Reading the decimal digits of `n` back gives `n`. -/
theorem decimal_value (n : Nat) :
    (decimal n).foldl (fun a d => 10 * a + (d - 0x30)) 0 = n := by
  unfold decimal
  split_ifs with h
  · simp [h]
  · rw [List.foldl_map, List.foldl_reverse]
    rw [foldr_digits, Nat.ofDigits_digits]

theorem toInt32_of_int (n : Nat) (h : (n : Int) ≤ INT_MAX) : toInt32 (n : Int) = (n : Int) := by
  unfold INT_MAX at h
  unfold toInt32
  omega

/-- A `%d` conversion on the decimal digits of a number that fits an `int`. -/
theorem scanInt_decimal (n : Nat) (tail : List Nat) (h : (n : Int) ≤ INT_MAX)
    (ht : stopsNumber tail) :
    scanInt (decimal n ++ tail) = some ((n : Int), tail) := by
  obtain ⟨d, ds, hd⟩ : ∃ d ds, decimal n = d :: ds := by
    cases h : decimal n with
    | nil => exact absurd h (decimal_ne_nil n)
    | cons d ds => exact ⟨d, ds, rfl⟩
  have hb := decimal_bytes n d (by rw [hd]; exact List.mem_cons_self _ _)
  have hdig : isDigit d = true := by simp [isDigit, hb]
  have hsp : isSpace d = false := by
    simp only [isSpace, decide_eq_false_iff_not]
    omega
  have hs := scanDigits_append (decimal n) tail 0 (decimal_isDigit n) ht
  rw [decimal_value] at hs
  rw [hd] at hs ⊢
  have h1 : d ≠ 0x2d := by omega
  have h2 : d ≠ 0x2b := by omega
  simp only [List.cons_append] at hs ⊢
  simp only [scanInt, skipSpace, hsp, h1, h2, scanUnsigned, hdig, if_true, if_false, hs,
    toInt32_of_int n h, Bool.false_eq_true]

theorem cString_append (l m : List Nat) (h : ∀ b ∈ l, b ≠ 0) :
    cString (l ++ m) = l ++ cString m := by
  induction l with
  | nil => rfl
  | cons b bs ih =>
    have hb : b ≠ 0 := h b (List.mem_cons_self _ _)
    simp only [List.cons_append, cString, hb, if_false]
    exact congrArg (List.cons b) (ih (fun x hx => h x (List.mem_cons_of_mem _ hx)))

theorem stopsNumber_cString (litByte : Nat) (junk : List Nat)
    (hlit : isDigit litByte = false) : stopsNumber (cString (litByte :: junk)) := by
  intro b t hbt
  simp only [cString] at hbt
  split_ifs at hbt with h0
  · simp only [List.cons.injEq] at hbt
    rw [← hbt.1]
    exact hlit

/-- When the read loop has stored exactly `ESC [ r ; c` and the byte left behind
it is no digit, `getCursorPosition` returns 0 with `r` rows and `c` columns. -/
theorem getCursorPosition_of_stored (litByte : Nat) (mem : List Nat) (rows cols : Int)
    (r c : Nat) (input rest : List ReadResult)
    (hr : (r : Int) ≤ INT_MAX) (hc : (c : Int) ≤ INT_MAX) (hlit : isDigit litByte = false)
    (hread : readReply 31 [] input = (replyBody r c, rest)) :
    getCursorPosition 4 litByte mem rows cols input =
      { ret := 0, rows := (r : Int), cols := (c : Int), written := [positionRequest],
        rest := rest } := by
  have hnz : ∀ n, ∀ b ∈ decimal n, b ≠ 0 := by
    intro n b hb
    have := decimal_bytes n b hb
    omega
  have hs1 : stopsNumber
      (0x3b :: (decimal c ++ cString (litByte :: mem.drop ((replyBody r c).length + 1)))) := by
    intro b t hbt
    simp only [List.cons.injEq] at hbt
    rw [← hbt.1]
    decide
  have e1 := scanInt_decimal r _ hr hs1
  have e2 := scanInt_decimal c _ hc
    (stopsNumber_cString litByte (mem.drop ((replyBody r c).length + 1)) hlit)
  have hdrop : (replyBody r c ++ litByte :: mem.drop ((replyBody r c).length + 1)).drop 2 =
      decimal r ++ (0x3b :: (decimal c ++
        litByte :: mem.drop ((replyBody r c).length + 1))) := by
    simp [replyBody]
  have hcs : cString (decimal r ++ (0x3b :: (decimal c ++
        litByte :: mem.drop ((replyBody r c).length + 1)))) =
      decimal r ++ (0x3b :: (decimal c ++
        cString (litByte :: mem.drop ((replyBody r c).length + 1)))) := by
    rw [cString_append _ _ (hnz r)]
    have : cString (0x3b :: (decimal c ++ litByte :: mem.drop ((replyBody r c).length + 1))) =
        0x3b :: cString (decimal c ++ litByte :: mem.drop ((replyBody r c).length + 1)) := by
      simp [cString]
    rw [this, cString_append _ _ (hnz c)]
  have h0 : (replyBody r c ++ litByte :: mem.drop ((replyBody r c).length + 1)).getD 0 0 =
      0x1b := by
    simp [replyBody]
  have h1 : (replyBody r c ++ litByte :: mem.drop ((replyBody r c).length + 1)).getD 1 0 =
      0x5b := by
    simp [replyBody]
  unfold getCursorPosition
  simp only [hread, h0, h1, hdrop, hcs, sscanfRowsCols, e1, e2, ne_eq, not_true_eq_false,
    or_self, if_false, if_true]


/-! ## Window size: the read loop -/

theorem readReply_bytes (bs : List Nat) (n : Nat) (stored : List Nat)
    (tail : List ReadResult) (hn : bs.length ≤ n) (hR : ∀ b ∈ bs, b ≠ 0x52) :
    readReply n stored (bs.map ReadResult.byte ++ tail) =
      readReply (n - bs.length) (stored ++ bs) tail := by
  induction bs generalizing n stored with
  | nil => simp
  | cons b bs ih =>
    cases n with
    | zero => simp at hn
    | succ n =>
      have hb : b ≠ 0x52 := hR b (List.mem_cons_self _ _)
      simp only [List.map_cons, List.cons_append, readReply, readOne_byte, hb, if_false,
        List.length_cons, Nat.add_sub_add_right]
      rw [ih n (stored ++ [b]) (by simpa using hn)
        (fun x hx => hR x (List.mem_cons_of_mem _ hx))]
      simp

theorem replyBody_facts (r c : Nat) (hr : (r : Int) ≤ INT_MAX) (hc : (c : Int) ≤ INT_MAX) :
    (replyBody r c).length ≤ 23 ∧ ∀ b ∈ replyBody r c, b ≠ 0x52 := by
  unfold INT_MAX at hr hc
  constructor
  · have h1 := decimal_length_le r (by omega)
    have h2 := decimal_length_le c (by omega)
    simp only [replyBody, List.length_append, List.length_cons, List.length_nil]
    omega
  · intro b hb
    simp only [replyBody, List.mem_append, List.mem_cons, List.mem_singleton,
      List.not_mem_nil, or_false] at hb
    rcases hb with ((h | h) | h) | h
    · rcases h with h | h <;> omega
    · have := decimal_bytes _ b h; omega
    · omega
    · have := decimal_bytes _ b h; omega

/-- The read loop on a report cut short by a read that does not return 1. -/
theorem readReply_cut (r c : Nat) (sr : ReadResult) (rest : List ReadResult)
    (hr : (r : Int) ≤ INT_MAX) (hc : (c : Int) ≤ INT_MAX) (hs : sr.short = true) :
    readReply 31 [] ((replyBody r c).map ReadResult.byte ++ sr :: rest) =
      (replyBody r c, rest) ∧
    readReply 31 [] ((replyBody r c).map ReadResult.byte ++ []) = (replyBody r c, []) := by
  obtain ⟨hl, hR⟩ := replyBody_facts r c hr hc
  obtain ⟨k, hk⟩ : ∃ k, 31 - (replyBody r c).length = k + 1 := ⟨30 - (replyBody r c).length, by omega⟩
  constructor
  · rw [readReply_bytes _ 31 [] _ (by omega) hR, hk]
    simp [readReply, readOne_short sr rest hs]
  · rw [readReply_bytes _ 31 [] _ (by omega) hR, hk]
    simp [readReply, readOne_nil]

/-- C15, as stated, fails: after `ESC [ 2 4 ; 8 0` and a timeout, with no `R`
read, `getCursorPosition` returns 0 and reports 24 rows and 80 columns. -/
theorem C15_counterexample :
    getCursorPosition 4 0 [] 0 0
        [.byte 0x1b, .byte 0x5b, .byte 0x32, .byte 0x34, .byte 0x3b, .byte 0x38, .byte 0x30,
          .timeout] =
      { ret := 0, rows := 24, cols := 80, written := [positionRequest], rest := [] } := by
  decide

/-- C15, amended. A missing terminator is not a failure, `getCursorPosition`
never tests for `R`: for all `r` and `c` in `0 .. INT_MAX`, when the request
was written and the reply `ESC [ r ; c` is followed by a read that times out or
fails (or by the end of the input), and the byte left behind the stored ones is
no digit, it returns 0 with `r` rows and `c` columns. -/
theorem C15_missing_terminator_is_accepted (litByte : Nat) (mem : List Nat)
    (rows cols : Int) (r c : Nat) (sr : ReadResult) (rest : List ReadResult)
    (hr : (r : Int) ≤ INT_MAX) (hc : (c : Int) ≤ INT_MAX) (hs : sr.short = true)
    (hlit : isDigit litByte = false) :
    getCursorPosition 4 litByte mem rows cols
        ((replyBody r c).map ReadResult.byte ++ sr :: rest) =
      { ret := 0, rows := (r : Int), cols := (c : Int), written := [positionRequest],
        rest := rest } ∧
    getCursorPosition 4 litByte mem rows cols ((replyBody r c).map ReadResult.byte ++ []) =
      { ret := 0, rows := (r : Int), cols := (c : Int), written := [positionRequest],
        rest := [] } := by
  obtain ⟨h1, h2⟩ := readReply_cut r c sr rest hr hc hs
  exact ⟨getCursorPosition_of_stored litByte mem rows cols r c _ rest hr hc hlit h1,
    getCursorPosition_of_stored litByte mem rows cols r c _ [] hr hc hlit h2⟩

theorem C15_missing_terminator_is_accepted_witness :
    getCursorPosition 4 0 [] 0 0
        ((replyBody 24 80).map ReadResult.byte ++ .timeout :: [.byte 0x61]) =
      { ret := 0, rows := ((24 : Nat) : Int), cols := ((80 : Nat) : Int),
        written := [positionRequest], rest := [.byte 0x61] } :=
  (C15_missing_terminator_is_accepted 0 [] 0 0 24 80 .timeout [.byte 0x61] (by decide)
    (by decide) rfl (by decide)).1

/-! ## Window size: signed numbers in the report -/

theorem toInt32_of_range (z : Int) (h : INT_MIN ≤ z ∧ z ≤ INT_MAX) : toInt32 z = z := by
  unfold INT_MIN INT_MAX at h
  unfold toInt32
  omega

theorem decimal_cons (n : Nat) : ∃ d ds, decimal n = d :: ds ∧ 0x30 ≤ d ∧ d ≤ 0x39 := by
  cases h : decimal n with
  | nil => exact absurd h (decimal_ne_nil n)
  | cons d ds =>
    have := decimal_bytes n d (by rw [h]; exact List.mem_cons_self _ _)
    exact ⟨d, ds, rfl, this⟩

/-- A digit string always scans as a number, whatever follows it. -/
theorem scanUnsigned_decimal_some (n : Nat) (tail : List Nat) :
    ∃ p, scanUnsigned (decimal n ++ tail) = some p := by
  obtain ⟨d, ds, hd, hb⟩ := decimal_cons n
  have hdig : isDigit d = true := by simp [isDigit, hb]
  rw [hd]
  exact ⟨scanDigits (d :: (ds ++ tail)) 0, by
    simp only [List.cons_append, scanUnsigned, hdig, if_true]⟩

theorem scanUnsigned_decimal (n : Nat) (tail : List Nat) (ht : stopsNumber tail) :
    scanUnsigned (decimal n ++ tail) = some (n, tail) := by
  obtain ⟨d, ds, hd, hb⟩ := decimal_cons n
  have hdig : isDigit d = true := by simp [isDigit, hb]
  have hs := scanDigits_append (decimal n) tail 0 (decimal_isDigit n) ht
  rw [decimal_value] at hs
  rw [hd] at hs ⊢
  simp only [List.cons_append] at hs ⊢
  simp only [scanUnsigned, hdig, if_true, hs]

/-- A `%d` conversion on a text that starts with a minus sign. -/
theorem scanInt_minus (s : List Nat) :
    scanInt (0x2d :: s) =
      (match scanUnsigned s with
        | some (v, t) => some (toInt32 (-(v : Int)), t)
        | none => none) := rfl

/-- A `%d` conversion on a text that starts with a digit. -/
theorem scanInt_digit (d : Nat) (s : List Nat) (hb : 0x30 ≤ d ∧ d ≤ 0x39) :
    scanInt (d :: s) =
      (match scanUnsigned (d :: s) with
        | some (v, t) => some (toInt32 (v : Int), t)
        | none => none) := by
  have hsp : isSpace d = false := by
    simp only [isSpace, decide_eq_false_iff_not]
    omega
  have h1 : d ≠ 0x2d := by omega
  have h2 : d ≠ 0x2b := by omega
  simp only [scanInt, skipSpace, hsp, h1, h2, if_false, Bool.false_eq_true]

/-- A `%d` conversion reads back what `%d` printed, for every `int`. -/
theorem scanInt_formatInt (z : Int) (tail : List Nat) (hz : INT_MIN ≤ z ∧ z ≤ INT_MAX)
    (ht : stopsNumber tail) :
    scanInt (formatInt z ++ tail) = some (z, tail) := by
  by_cases hneg : z < 0
  · have hf : formatInt z = 0x2d :: decimal z.natAbs := by simp [formatInt, hneg]
    have hv : toInt32 (-((z.natAbs : Nat) : Int)) = z := by
      have : -((z.natAbs : Nat) : Int) = z := by omega
      rw [this]
      exact toInt32_of_range z hz
    rw [hf, List.cons_append, scanInt_minus, scanUnsigned_decimal z.natAbs tail ht]
    simp only [hv]
  · have hf : formatInt z = decimal z.toNat := by simp [formatInt, hneg]
    have hz1 : ((z.toNat : Nat) : Int) = z := Int.toNat_of_nonneg (by omega)
    have := scanInt_decimal z.toNat tail (by rw [hz1]; exact hz.2) ht
    rw [hf, this, hz1]

/-- A `%d` conversion on what `%d` printed stores some number, whatever follows. -/
theorem scanInt_formatInt_some (z : Int) (tail : List Nat) :
    ∃ p, scanInt (formatInt z ++ tail) = some p := by
  by_cases hneg : z < 0
  · have hf : formatInt z = 0x2d :: decimal z.natAbs := by simp [formatInt, hneg]
    obtain ⟨p, hp⟩ := scanUnsigned_decimal_some z.natAbs tail
    rw [hf, List.cons_append, scanInt_minus, hp]
    exact ⟨(toInt32 (-(p.1 : Int)), p.2), rfl⟩
  · have hf : formatInt z = decimal z.toNat := by simp [formatInt, hneg]
    obtain ⟨d, ds, hd, hb⟩ := decimal_cons z.toNat
    obtain ⟨p, hp⟩ := scanUnsigned_decimal_some z.toNat tail
    rw [hf]
    rw [hd] at hp ⊢
    rw [List.cons_append] at hp ⊢
    rw [scanInt_digit d _ hb, hp]
    exact ⟨(toInt32 (p.1 : Int), p.2), rfl⟩

theorem formatInt_length_le (z : Int) (hz : INT_MIN ≤ z ∧ z ≤ INT_MAX) :
    (formatInt z).length ≤ 11 := by
  unfold INT_MIN INT_MAX at hz
  unfold formatInt
  split_ifs
  · have := decimal_length_le z.natAbs (by omega)
    simp only [List.length_cons]
    omega
  · have := decimal_length_le z.toNat (by omega)
    omega

theorem replyBodyInt_facts (a b : Int) (ha : INT_MIN ≤ a ∧ a ≤ INT_MAX)
    (hb : INT_MIN ≤ b ∧ b ≤ INT_MAX) :
    (replyBodyInt a b).length ≤ 25 ∧ ∀ x ∈ replyBodyInt a b, x ≠ 0x52 := by
  constructor
  · have h1 := formatInt_length_le a ha
    have h2 := formatInt_length_le b hb
    simp only [replyBodyInt, List.length_append, List.length_cons, List.length_nil]
    omega
  · intro x hx
    simp only [replyBodyInt, List.mem_append, List.mem_cons, List.mem_singleton,
      List.not_mem_nil, or_false] at hx
    rcases hx with ((h | h) | h) | h
    · rcases h with h | h <;> omega
    · rcases formatInt_bytes _ x h with h1 | h1 <;> omega
    · omega
    · rcases formatInt_bytes _ x h with h1 | h1 <;> omega

/-- The read loop on a complete report with signed numbers. -/
theorem readReply_reportInt (a b : Int) (rest : List ReadResult)
    (ha : INT_MIN ≤ a ∧ a ≤ INT_MAX) (hb : INT_MIN ≤ b ∧ b ≤ INT_MAX) :
    readReply 31 [] ((replyBodyInt a b).map ReadResult.byte ++ .byte 0x52 :: rest) =
      (replyBodyInt a b, rest) := by
  obtain ⟨hl, hR⟩ := replyBodyInt_facts a b ha hb
  rw [readReply_bytes _ 31 [] _ (by omega) hR]
  obtain ⟨k, hk⟩ : ∃ k, 31 - (replyBodyInt a b).length = k + 1 :=
    ⟨30 - (replyBodyInt a b).length, by omega⟩
  rw [hk]
  simp [readReply, readOne_byte]

/-- When the read loop has stored `ESC [ a ; b` with `a` an `int`,
`getCursorPosition` returns 0 and stores `a` as the rows, whatever the sign of
`a` and `b` and whatever byte is left behind the stored ones. -/
theorem getCursorPosition_rows_of_stored (litByte : Nat) (mem : List Nat) (rows cols : Int)
    (a b : Int) (input rest : List ReadResult) (ha : INT_MIN ≤ a ∧ a ≤ INT_MAX)
    (hread : readReply 31 [] input = (replyBodyInt a b, rest)) :
    (getCursorPosition 4 litByte mem rows cols input).ret = 0 ∧
    (getCursorPosition 4 litByte mem rows cols input).rows = a ∧
    (getCursorPosition 4 litByte mem rows cols input).rest = rest := by
  have hnz : ∀ z : Int, ∀ x ∈ formatInt z, x ≠ 0 := by
    intro z x hx
    rcases formatInt_bytes z x hx with h | h <;> omega
  have hs1 : ∀ X : List Nat, stopsNumber (0x3b :: X) := by
    intro X x t hxt
    simp only [List.cons.injEq] at hxt
    rw [← hxt.1]
    decide
  have hdrop : (replyBodyInt a b ++ litByte :: mem.drop ((replyBodyInt a b).length + 1)).drop 2 =
      formatInt a ++ (0x3b :: (formatInt b ++
        litByte :: mem.drop ((replyBodyInt a b).length + 1))) := by
    simp [replyBodyInt]
  have hcs : cString (formatInt a ++ (0x3b :: (formatInt b ++
        litByte :: mem.drop ((replyBodyInt a b).length + 1)))) =
      formatInt a ++ (0x3b :: (formatInt b ++
        cString (litByte :: mem.drop ((replyBodyInt a b).length + 1)))) := by
    rw [cString_append _ _ (hnz a)]
    have : cString (0x3b :: (formatInt b ++
          litByte :: mem.drop ((replyBodyInt a b).length + 1))) =
        0x3b :: cString (formatInt b ++
          litByte :: mem.drop ((replyBodyInt a b).length + 1)) := by
      simp [cString]
    rw [this, cString_append _ _ (hnz b)]
  have e1 := scanInt_formatInt a _ ha
    (hs1 (formatInt b ++ cString (litByte :: mem.drop ((replyBodyInt a b).length + 1))))
  obtain ⟨p, e2⟩ := scanInt_formatInt_some b
    (cString (litByte :: mem.drop ((replyBodyInt a b).length + 1)))
  have h0 : (replyBodyInt a b ++ litByte :: mem.drop ((replyBodyInt a b).length + 1)).getD 0 0 =
      0x1b := by
    simp [replyBodyInt]
  have h1 : (replyBodyInt a b ++ litByte :: mem.drop ((replyBodyInt a b).length + 1)).getD 1 0 =
      0x5b := by
    simp [replyBodyInt]
  unfold getCursorPosition
  simp only [hread, h0, h1, hdrop, hcs, sscanfRowsCols, e1, e2, ne_eq, not_true_eq_false,
    or_self, if_false, if_true, and_self]

/-- C14, as stated, fails: the direct query succeeds with `ws_row = 0` and
`ws_col = 80` and stores 0 rows, and the fallback accepts the reply `ESC [ 0 ; 0 R`
and stores 0 rows and 0 columns. -/
theorem C14_counterexample :
    getWindowSize (some (0, 80)) 12 4 0 [] 0 0 [] =
      { ret := 0, rows := 0, cols := 80, written := [], rest := [] } ∧
    getWindowSize none 12 4 0 [] 7 7
        [.byte 0x1b, .byte 0x5b, .byte 0x30, .byte 0x3b, .byte 0x30, .byte 0x52] =
      { ret := 0, rows := 0, cols := 0, written := [cornerRequest, positionRequest],
        rest := [] } := by
  constructor <;> decide

/-- C14, amended. Whenever `getWindowSize` reports success through the direct
size query, the values stored are the queried ones, with `cols > 0` and
`rows >= 0`: only `ws_col` is tested against 0.  Through the fallback no sign is
tested: when the query fails or reports 0 columns and both probes are written,
the report `ESC [ a ; b R` is accepted for all `int`s `a` and `b`, zero and
negative ones included, and `a` is stored as the rows. -/
theorem C14_direct_query_cols_positive (wsRow wsCol : Nat) (w1 w2 : Int) (litByte : Nat)
    (mem : List Nat) (rows cols : Int) (input : List ReadResult)
    (a b : Int) (rest : List ReadResult) (hc : wsCol ≠ 0)
    (ha : INT_MIN ≤ a ∧ a ≤ INT_MAX) (hb : INT_MIN ≤ b ∧ b ≤ INT_MAX) :
    ((getWindowSize (some (wsRow, wsCol)) w1 w2 litByte mem rows cols input).ret = 0 ∧
      (getWindowSize (some (wsRow, wsCol)) w1 w2 litByte mem rows cols input).rows = wsRow ∧
      (getWindowSize (some (wsRow, wsCol)) w1 w2 litByte mem rows cols input).cols = wsCol ∧
      0 < (getWindowSize (some (wsRow, wsCol)) w1 w2 litByte mem rows cols input).cols ∧
      0 ≤ (getWindowSize (some (wsRow, wsCol)) w1 w2 litByte mem rows cols input).rows) ∧
    ((getWindowSize none 12 4 litByte mem rows cols
        ((replyBodyInt a b).map ReadResult.byte ++ .byte 0x52 :: rest)).ret = 0 ∧
      (getWindowSize none 12 4 litByte mem rows cols
        ((replyBodyInt a b).map ReadResult.byte ++ .byte 0x52 :: rest)).rows = a) ∧
    ((getWindowSize (some (wsRow, 0)) 12 4 litByte mem rows cols
        ((replyBodyInt a b).map ReadResult.byte ++ .byte 0x52 :: rest)).ret = 0 ∧
      (getWindowSize (some (wsRow, 0)) 12 4 litByte mem rows cols
        ((replyBodyInt a b).map ReadResult.byte ++ .byte 0x52 :: rest)).rows = a) := by
  have e : getWindowSize (some (wsRow, wsCol)) w1 w2 litByte mem rows cols input =
      { ret := 0, rows := (wsRow : Int), cols := (wsCol : Int), written := [],
        rest := input } := by
    simp [getWindowSize, hc]
  obtain ⟨g1, g2, -⟩ := getCursorPosition_rows_of_stored litByte mem rows cols a b _ rest ha
    (readReply_reportInt a b rest ha hb)
  have f : ∀ inp : List ReadResult,
      (windowSizeFallback 12 4 litByte mem rows cols inp).ret =
        (getCursorPosition 4 litByte mem rows cols inp).ret ∧
      (windowSizeFallback 12 4 litByte mem rows cols inp).rows =
        (getCursorPosition 4 litByte mem rows cols inp).rows := by
    intro inp
    simp [windowSizeFallback]
  have k0 : ∀ inp : List ReadResult,
      getWindowSize (some (wsRow, 0)) 12 4 litByte mem rows cols inp =
        windowSizeFallback 12 4 litByte mem rows cols inp := by
    intro inp
    simp [getWindowSize]
  have kn : ∀ inp : List ReadResult,
      getWindowSize none 12 4 litByte mem rows cols inp =
        windowSizeFallback 12 4 litByte mem rows cols inp := fun _ => rfl
  refine ⟨?_, ?_, ?_⟩
  · rw [e]
    refine ⟨rfl, rfl, rfl, ?_, ?_⟩
    · show (0 : Int) < (wsCol : Int)
      omega
    · show (0 : Int) ≤ (wsRow : Int)
      omega
  · rw [kn, (f _).1, (f _).2]
    exact ⟨g1, g2⟩
  · rw [k0, (f _).1, (f _).2]
    exact ⟨g1, g2⟩

theorem C14_direct_query_cols_positive_witness :
    (getWindowSize (some (24, 80)) 12 4 0 [] 0 0 []).ret = 0 ∧
    (getWindowSize none 12 4 0 [] 0 0
      ((replyBodyInt (-5) (-7)).map ReadResult.byte ++ .byte 0x52 :: [])).rows = -5 :=
  ⟨(C14_direct_query_cols_positive 24 80 12 4 0 [] 0 0 [] (-5) (-7) [] (by decide)
      (by decide) (by decide)).1.1,
    (C14_direct_query_cols_positive 24 80 12 4 0 [] 0 0 [] (-5) (-7) [] (by decide)
      (by decide) (by decide)).2.1.2⟩

/-! ## Window size: the complete report -/

/-- The first loop of `editorReadKey` swallows timeouts. -/
theorem editorReadKey_timeouts (charSigned : Bool) (k : Nat) (input : List ReadResult) :
    editorReadKey charSigned (List.replicate k .timeout ++ input) =
      editorReadKey charSigned input := by
  induction k with
  | zero => rfl
  | succ k ih =>
    rw [List.replicate_succ, List.cons_append, editorReadKey, ih]

theorem editorReadKey_only_timeouts (charSigned : Bool) (k : Nat) :
    editorReadKey charSigned (List.replicate k .timeout) = .waiting := by
  have := editorReadKey_timeouts charSigned k []
  rw [List.append_nil] at this
  rw [this]
  rfl

/-- C18, as stated, fails: with one timeout before the byte `a`, one turn of the
loop of `main`, with one frame rendered, has the byte read and its event
handled; a second frame is not rendered before. -/
theorem C18_counterexample :
    mainLoop true (fun _ => true) (fun _ => 0) 1 [] view24x80 [.timeout, .byte 0x61] =
      .running [frameBytes (fun _ => true) view24x80] view24x80 [] ∧
    (mainLoop true (fun _ => true) (fun _ => 0) 1 [] view24x80
      [.timeout, .byte 0x61]).frames.length ≠ 1 + 1 := by
  have e : mainLoop true (fun _ => true) (fun _ => 0) 1 [] view24x80 [.timeout, .byte 0x61] =
      .running [frameBytes (fun _ => true) view24x80] view24x80 [] := rfl
  refine ⟨e, ?_⟩
  rw [e]
  decide

/-- C18, amended. A read timeout does not return control to the loop of `main`:
`editorReadKey` repeats the read until a byte arrives, so with `k` timeouts
before a byte other than ESC one turn of the loop, which renders exactly one
frame, reads the byte and handles its event, for every `k`; and while only
timeouts arrive the key read does not return at all. -/
theorem C18_timeouts_stay_in_read_key (charSigned : Bool) (allocOk : Nat → Bool)
    (wret : Nat → Int) (E : editorConfig) (k b : Nat) (rest : List ReadResult)
    (hb : b ≠ 0x1b) :
    editorReadKey charSigned (List.replicate k .timeout ++ .byte b :: rest) =
      .key (charToInt charSigned b) rest ∧
    editorReadKey charSigned (List.replicate k .timeout) = .waiting ∧
    mainLoop charSigned allocOk wret 1 [] E (List.replicate k .timeout ++ .byte b :: rest) =
      (match editorHandleKey (charToInt charSigned b) E with
        | .running E1 => .running [frameBytes allocOk E] E1 rest
        | .quit out => .exited 0 [frameBytes allocOk E] out) ∧
    (mainLoop charSigned allocOk wret 1 [] E
      (List.replicate k .timeout ++ .byte b :: rest)).frames.length = 1 := by
  have e1 : editorReadKey charSigned (List.replicate k .timeout ++ .byte b :: rest) =
      .key (charToInt charSigned b) rest := by
    rw [editorReadKey_timeouts]
    simp [editorReadKey, ESC, hb]
  have e3 : mainLoop charSigned allocOk wret 1 [] E
      (List.replicate k .timeout ++ .byte b :: rest) =
      (match editorHandleKey (charToInt charSigned b) E with
        | .running E1 => .running [frameBytes allocOk E] E1 rest
        | .quit out => .exited 0 [frameBytes allocOk E] out) := by
    simp only [mainLoop, editorRefreshScreen, editorProcessKeypress, e1]
    cases editorHandleKey (charToInt charSigned b) E <;> rfl
  refine ⟨e1, editorReadKey_only_timeouts charSigned k, e3, ?_⟩
  rw [e3]
  cases editorHandleKey (charToInt charSigned b) E <;> rfl

theorem C18_timeouts_stay_in_read_key_witness :
    (mainLoop true (fun _ => true) (fun _ => 0) 1 [] view24x80
      (List.replicate 3 .timeout ++ .byte 0x61 :: [])).frames.length = 1 :=
  (C18_timeouts_stay_in_read_key true (fun _ => true) (fun _ => 0) view24x80 3 0x61 []
    (by decide)).2.2.2

/-- C19, as stated, fails: when the `write` of the frame returns -1,
`editorRefreshScreen` returns all the same, and the loop of `main` goes on to
the key read instead of ending the process with status 1. -/
theorem C19_counterexample :
    editorRefreshScreen (fun _ => true) view24x80 (-1) =
      .returned (frameBytes (fun _ => true) view24x80) ∧
    editorRefreshScreen (fun _ => true) view24x80 (-1) ≠ .exited 1 ∧
    mainLoop true (fun _ => true) (fun _ => -1) 1 [] view24x80 [.byte 0x61] =
      .running [frameBytes (fun _ => true) view24x80] view24x80 [] := by
  refine ⟨rfl, ?_, rfl⟩
  intro h
  cases h

/-- C19, amended. Write errors while rendering are ignored: whatever the single
`write` of a frame returns, a failure or fewer bytes than the frame,
`editorRefreshScreen` returns normally, and the loop of `main` runs as it does
when every `write` is complete. -/
theorem C19_frame_write_result_is_ignored (charSigned : Bool) (allocOk : Nat → Bool)
    (wret wret1 : Nat → Int) (w : Int) (E : editorConfig) (n : Nat)
    (frames : List (List Nat)) (input : List ReadResult) :
    editorRefreshScreen allocOk E w = .returned (frameBytes allocOk E) ∧
    mainLoop charSigned allocOk wret n frames E input =
      mainLoop charSigned allocOk wret1 n frames E input := by
  refine ⟨rfl, ?_⟩
  induction n generalizing frames E input with
  | zero => rfl
  | succ n ih =>
    simp only [mainLoop, editorRefreshScreen]
    cases editorProcessKeypress charSigned E input with
    | running E1 rest => exact ih _ _ _
    | exited status out rest => rfl
    | waiting => rfl


end Kilo
